import Mathlib

set_option maxRecDepth 4000

/-!
Shallow embedding of `edustudio` (src/edustudio/web/handlers.py) and proofs
about its view-model builders, formatters, fixture store and handlers.

Conventions of the embedding:
* Python `int` is `ℕ`/`ℤ`; `uuid.UUID` is its 128-bit integer value (`ℕ`),
  compared and ordered the way Python compares UUIDs (by that integer).
* Python `float` is modelled exactly: an IEEE-754 binary64 value produced by
  a correctly rounded operation is the real result rounded to 53 significant
  bits with round-half-to-even.  CPython's `int / int`, `float * float` and
  `int`→`float` conversion are all correctly rounded, and `round` applied to
  a float is exact round-half-to-even of the represented value.  Overflow and
  subnormals are not modelled; every value reached in this program is far
  inside the normal range.  Doubles are represented below as significand ×
  2^exponent pairs so that everything is computable by kernel reduction.
* Fallible Python code (`ZeroDivisionError`, `TypeError` from unorderable
  enum values) is modelled with `Option`/`Except`.
-/

/-- Round-half-to-even of the fraction `a / b` (for `b > 0`), written with
natural-number division so that it evaluates by kernel reduction.  This is
the semantics of Python's `round` on a nonnegative value. -/
def rheFrac (a b : ℕ) : ℕ :=
  let d := a / b
  let r := a % b
  if 2 * r < b then d
  else if b < 2 * r then d + 1
  else if d % 2 = 0 then d else d + 1

/-- Floor of log₂ with explicit fuel (structural recursion, so it evaluates
by kernel reduction, unlike `Nat.log2`). -/
def log2fuel : ℕ → ℕ → ℕ
  | 0, _ => 0
  | f + 1, m => if 2 ≤ m then log2fuel f (m / 2) + 1 else 0

/-- Floor of log₂ of a positive natural number. -/
def log2n (n : ℕ) : ℕ := log2fuel n n

/-- Decides `a / b < 2^e` over the naturals by cross-multiplication. -/
def ltPow2 (a b : ℕ) (e : ℤ) : Bool :=
  if 0 ≤ e then a < b * 2 ^ e.toNat else a * 2 ^ (-e).toNat < b

/-- Binary exponent of the positive fraction `a / b`: the unique `e` with
`2^e ≤ a/b < 2^(e+1)`, computed from the bit lengths of `a` and `b`. -/
def fracExp (a b : ℕ) : ℤ :=
  let e : ℤ := (log2n a : ℤ) - (log2n b : ℤ)
  if ltPow2 a b e then e - 1 else e

/-- The IEEE-754 binary64 value nearest to `a / b` (round half to even),
returned as a significand–exponent pair `(m, e)` representing `m * 2^e`.
Overflow and subnormals are not modelled. -/
def floatFrac (a b : ℕ) : ℕ × ℤ :=
  if a = 0 then (0, 0)
  else if 52 ≤ fracExp a b then
    (rheFrac a (b * 2 ^ (fracExp a b - 52).toNat), fracExp a b - 52)
  else (rheFrac (a * 2 ^ (52 - fracExp a b).toNat) b, fracExp a b - 52)

/-- Correctly rounded product of two nonnegative binary64 values, as
performed by Python's float multiplication. -/
def floatMul (x y : ℕ × ℤ) : ℕ × ℤ :=
  if 0 ≤ x.2 + y.2 then floatFrac (x.1 * y.1 * 2 ^ (x.2 + y.2).toNat) 1
  else floatFrac (x.1 * y.1) (2 ^ (-(x.2 + y.2)).toNat)

/-- Python's `round` applied to a nonnegative binary64 value: exact
round-half-to-even of the represented rational. -/
def pyRound (x : ℕ × ℤ) : ℕ :=
  if 0 ≤ x.2 then x.1 * 2 ^ x.2.toNat else rheFrac x.1 (2 ^ (-x.2).toNat)

/-- The percentage computed by `create_class_attendance` for `k` attended
(present or late) days out of `t > 0` total days:
`round((100 / total_days()) * (days_present() + days_late()))`, where
`100 / t` is CPython's correctly rounded int/int true division, the int
`k` is converted to the nearest double, the product is a correctly rounded
float multiplication, and `round` is round-half-to-even of the float. -/
def pyPercentage (k t : ℕ) : ℕ :=
  pyRound (floatMul (floatFrac 100 t) (floatFrac k 1))

/-- Modelled from the spec's words: `round(100 × (daysPresent + daysLate) /
totalDays)` computed on the exact rational, with ties handled by the
language's default rounding (Python's `round` rounds half to even). -/
def specPercentage (k t : ℕ) : ℕ := rheFrac (100 * k) t

example : pyPercentage 15 24 = 63 := by decide
example : specPercentage 15 24 = 62 := by decide
example : pyPercentage 4 5 = 80 := by decide
example : pyPercentage 0 5 = 0 := by decide

/-! ### Value semantics of the double model -/

/-- The rational value represented by a significand–exponent pair. -/
def fval (x : ℕ × ℤ) : ℚ := (x.1 : ℚ) * (2:ℚ) ^ x.2

theorem rheFrac_dist (a b : ℕ) (hb : 0 < b) :
    |(rheFrac a b : ℚ) - (a : ℚ) / b| ≤ 1 / 2 := by
  have hb0 : (0:ℚ) < (b:ℚ) := by exact_mod_cast hb
  have hdm : b * (a / b) + a % b = a := Nat.div_add_mod a b
  have hmlt : a % b < b := Nat.mod_lt a hb
  have hbne : (b:ℚ) ≠ 0 := hb0.ne'
  have hq : (a:ℚ) / b = (a / b : ℕ) + ((a % b : ℕ) : ℚ) / b := by
    have h0 : ((b * (a / b) + a % b : ℕ) : ℚ) = (a : ℚ) := by rw [hdm]
    push_cast at h0
    rw [← h0]
    field_simp
    ring
  simp only [rheFrac]
  split
  · rename_i h
    have h' : ((a % b : ℕ) : ℚ) / b < 1/2 := by
      rw [div_lt_iff hb0]
      have : (2:ℚ) * (a % b : ℕ) < b := by exact_mod_cast h
      linarith
    have hnn : (0:ℚ) ≤ ((a % b : ℕ) : ℚ) / b := by positivity
    rw [hq, abs_le]
    constructor <;> push_cast <;> linarith
  · rename_i h
    have hle : ((a % b : ℕ) : ℚ) / b ≤ 1 := by
      rw [div_le_one hb0]
      exact_mod_cast hmlt.le
    have h' : 1/2 ≤ ((a % b : ℕ) : ℚ) / b := by
      rw [le_div_iff hb0]
      have : (b:ℚ) ≤ 2 * (a % b : ℕ) := by exact_mod_cast Nat.le_of_not_lt h
      linarith
    split
    · rw [hq, abs_le]; constructor <;> push_cast <;> linarith
    · rename_i h2
      have hrb : 2 * (a % b) = b := by omega
      have hhalf : ((a % b : ℕ) : ℚ) / b = 1/2 := by
        rw [div_eq_iff hbne]
        have hc : ((2 * (a % b) : ℕ) : ℚ) = (b : ℚ) := by exact_mod_cast congrArg (Nat.cast (R := ℚ)) hrb
        push_cast at hc
        linarith
      split <;> (rw [hq, hhalf, abs_le]; constructor <;> push_cast <;> linarith)

theorem rheFrac_eq_of_mem (a b : ℕ) (m : ℕ) (hb : 0 < b)
    (h1 : (m : ℚ) - 1/2 < (a:ℚ)/b) (h2 : (a:ℚ)/b < (m : ℚ) + 1/2) :
    rheFrac a b = m := by
  have hb0 : (0:ℚ) < (b:ℚ) := by exact_mod_cast hb
  have hdm : b * (a / b) + a % b = a := Nat.div_add_mod a b
  have hmlt : a % b < b := Nat.mod_lt a hb
  have hbne : (b:ℚ) ≠ 0 := hb0.ne'
  have hq : (a:ℚ) / b = (a / b : ℕ) + ((a % b : ℕ) : ℚ) / b := by
    have h0 : ((b * (a / b) + a % b : ℕ) : ℚ) = (a : ℚ) := by rw [hdm]
    push_cast at h0
    rw [← h0]
    field_simp
    ring
  -- the integer division of a by b is either m or m - 1
  simp only [rheFrac]
  split
  · rename_i h
    -- remainder < half: value within 1/2 above a/b's floor, so floor = m
    have h' : ((a % b : ℕ) : ℚ) / b < 1/2 := by
      rw [div_lt_iff hb0]
      have : (2:ℚ) * (a % b : ℕ) < b := by exact_mod_cast h
      linarith
    have hnn : (0:ℚ) ≤ ((a % b : ℕ) : ℚ) / b := by positivity
    have hu : ((a / b : ℕ) : ℚ) < m + 1/2 := by rw [hq] at h2; linarith
    have hd : (m : ℚ) < (a / b : ℕ) + 1 := by rw [hq] at h1; linarith
    have hlow : m < a / b + 1 := by exact_mod_cast hd
    have hhigh : (a / b : ℕ) < m + 1 := by
      by_contra hc
      have : (m : ℚ) + 1 ≤ ((a / b : ℕ) : ℚ) := by exact_mod_cast Nat.le_of_not_lt hc
      linarith
    exact Nat.le_antisymm (Nat.lt_succ_iff.mp hhigh) (Nat.lt_succ_iff.mp hlow)
  · rename_i h
    have hle : ((a % b : ℕ) : ℚ) / b ≤ 1 := by
      rw [div_le_one hb0]
      exact_mod_cast hmlt.le
    have h' : 1/2 ≤ ((a % b : ℕ) : ℚ) / b := by
      rw [le_div_iff hb0]
      have : (b:ℚ) ≤ 2 * (a % b : ℕ) := by exact_mod_cast Nat.le_of_not_lt h
      linarith
    have hup : ((a / b : ℕ) : ℚ) < m := by rw [hq] at h2; linarith
    have hdn : (m : ℚ) < (a / b : ℕ) + 2 := by rw [hq] at h1; linarith
    have hlt : a / b < m := by exact_mod_cast hup
    have hge : m < a / b + 2 := by exact_mod_cast hdn
    have hm : m = a / b + 1 :=
      Nat.le_antisymm (Nat.lt_succ_iff.mp hge) (Nat.succ_le_of_lt hlt)
    split
    · -- remainder strictly above half: rounds up to m
      exact hm.symm
    · -- exact tie: a/b = m - 1/2, contradicting the strict lower bound h1
      exfalso
      rename_i hlt2
      have hrb : 2 * (a % b) = b := by omega
      have hhalf : ((a % b : ℕ) : ℚ) / b = 1/2 := by
        rw [div_eq_iff hbne]
        have hc : ((2 * (a % b) : ℕ) : ℚ) = (b : ℚ) := by
          exact_mod_cast congrArg (Nat.cast (R := ℚ)) hrb
        push_cast at hc
        linarith
      rw [hq, hhalf] at h1
      have hcast : ((a / b : ℕ) : ℚ) = (m : ℚ) - 1 := by
        have hc : ((a / b + 1 : ℕ) : ℚ) = (m : ℚ) := by
          exact_mod_cast congrArg (Nat.cast (R := ℚ)) hm.symm
        push_cast at hc
        linarith
      rw [hcast] at h1
      linarith

theorem rheFrac_one (a : ℕ) : rheFrac a 1 = a := by
  simp [rheFrac, Nat.mod_one]

theorem log2fuel_bracket :
    ∀ f m, 1 ≤ m → m ≤ 2 ^ f →
      2 ^ log2fuel f m ≤ m ∧ m < 2 ^ (log2fuel f m + 1) := by
  intro f
  induction f with
  | zero =>
    intro m h1 h2
    simp only [pow_zero] at h2
    have : m = 1 := le_antisymm h2 h1
    subst this
    simp [log2fuel]
  | succ f ih =>
    intro m h1 h2
    simp only [log2fuel]
    split
    · rename_i hm
      have hd1 : 1 ≤ m / 2 := by omega
      have hd2 : m / 2 ≤ 2 ^ f := by
        have := Nat.div_le_div_right (c := 2) h2
        rwa [pow_succ, Nat.mul_div_cancel] at this
        omega
      obtain ⟨l1, l2⟩ := ih (m / 2) hd1 hd2
      constructor
      · rw [pow_succ]
        omega
      · rw [pow_succ]
        omega
    · rename_i hm
      have : m = 1 := by omega
      subst this
      simp

theorem log2n_bracket (n : ℕ) (h : 1 ≤ n) :
    2 ^ log2n n ≤ n ∧ n < 2 ^ (log2n n + 1) :=
  log2fuel_bracket n n h (Nat.lt_two_pow n).le

theorem zpow_two_pos (e : ℤ) : (0:ℚ) < (2:ℚ) ^ e :=
  zpow_pos (by norm_num) e

theorem cast_pow2 (n : ℕ) : ((2 ^ n : ℕ) : ℚ) = (2:ℚ) ^ (n : ℤ) := by
  push_cast
  rw [zpow_natCast]

theorem ltPow2_iff (a b : ℕ) (e : ℤ) (hb : 0 < b) :
    ltPow2 a b e = true ↔ (a:ℚ) / b < (2:ℚ) ^ e := by
  have hb0 : (0:ℚ) < (b:ℚ) := by exact_mod_cast hb
  unfold ltPow2
  split
  · rename_i he
    simp only [decide_eq_true_eq]
    rw [div_lt_iff hb0]
    constructor
    · intro h
      have : (a:ℚ) < (b:ℚ) * ((2 ^ e.toNat : ℕ) : ℚ) := by exact_mod_cast h
      rw [cast_pow2, Int.toNat_of_nonneg he] at this
      linarith
    · intro h
      have : (a:ℚ) < (b:ℚ) * ((2 ^ e.toNat : ℕ) : ℚ) := by
        rw [cast_pow2, Int.toNat_of_nonneg he]
        linarith
      exact_mod_cast this
  · rename_i he
    have hneg : 0 ≤ -e := by omega
    simp only [decide_eq_true_eq]
    have hkey : (a:ℚ) * (2:ℚ) ^ (-e) < b ↔ (a:ℚ) / b < (2:ℚ) ^ e := by
      rw [div_lt_iff hb0]
      constructor
      · intro h
        have h3 := mul_lt_mul_of_pos_right h (zpow_two_pos e)
        rw [mul_assoc, ← zpow_add₀ (by norm_num : (2:ℚ) ≠ 0), neg_add_cancel,
          zpow_zero, mul_one] at h3
        rw [mul_comm]
        exact h3
      · intro h
        have h3 := mul_lt_mul_of_pos_right h (zpow_two_pos (-e))
        rw [mul_comm ((2:ℚ) ^ e) (b:ℚ), mul_assoc, ← zpow_add₀ (by norm_num : (2:ℚ) ≠ 0),
          add_neg_cancel, zpow_zero, mul_one] at h3
        exact h3
    rw [← hkey]
    constructor
    · intro h
      have : ((a * 2 ^ (-e).toNat : ℕ) : ℚ) < (b:ℚ) := by exact_mod_cast h
      push_cast [cast_pow2, Int.toNat_of_nonneg hneg] at this
      convert this using 2
      rw [← zpow_natCast, Int.toNat_of_nonneg hneg]
    · intro h
      have h' : ((a * 2 ^ (-e).toNat : ℕ) : ℚ) < (b:ℚ) := by
        push_cast
        rw [← zpow_natCast, Int.toNat_of_nonneg hneg]
        exact h
      exact_mod_cast h'

theorem fracExp_bracket (a b : ℕ) (ha : 0 < a) (hb : 0 < b) :
    (2:ℚ) ^ fracExp a b ≤ (a:ℚ) / b ∧ (a:ℚ) / b < (2:ℚ) ^ (fracExp a b + 1) := by
  have hb0 : (0:ℚ) < (b:ℚ) := by exact_mod_cast hb
  have h2 : (2:ℚ) ≠ 0 := by norm_num
  obtain ⟨la1, la2⟩ := log2n_bracket a ha
  obtain ⟨lb1, lb2⟩ := log2n_bracket b hb
  set A := log2n a with hA
  set B := log2n b with hB
  have qa1 : (2:ℚ) ^ (A : ℤ) ≤ (a:ℚ) := by
    rw [← cast_pow2]; exact_mod_cast la1
  have qa2 : (a:ℚ) < (2:ℚ) ^ ((A : ℤ) + 1) := by
    have : ((A : ℤ) + 1) = ((A + 1 : ℕ) : ℤ) := by push_cast; ring
    rw [this, ← cast_pow2]; exact_mod_cast la2
  have qb1 : (2:ℚ) ^ (B : ℤ) ≤ (b:ℚ) := by
    rw [← cast_pow2]; exact_mod_cast lb1
  have qb2 : (b:ℚ) < (2:ℚ) ^ ((B : ℤ) + 1) := by
    have : ((B : ℤ) + 1) = ((B + 1 : ℕ) : ℤ) := by push_cast; ring
    rw [this, ← cast_pow2]; exact_mod_cast lb2
  have claim1 : (2:ℚ) ^ ((A:ℤ) - B - 1) < (a:ℚ) / b := by
    rw [lt_div_iff hb0]
    calc (2:ℚ) ^ ((A:ℤ) - B - 1) * b < (2:ℚ) ^ ((A:ℤ) - B - 1) * (2:ℚ) ^ ((B:ℤ) + 1) :=
          mul_lt_mul_of_pos_left qb2 (zpow_two_pos _)
    _ = (2:ℚ) ^ (A : ℤ) := by rw [← zpow_add₀ h2]; ring_nf
    _ ≤ (a:ℚ) := qa1
  have claim2 : (a:ℚ) / b < (2:ℚ) ^ ((A:ℤ) - B + 1) := by
    rw [div_lt_iff hb0]
    calc (a:ℚ) < (2:ℚ) ^ ((A : ℤ) + 1) := qa2
    _ = (2:ℚ) ^ ((A:ℤ) - B + 1) * (2:ℚ) ^ (B : ℤ) := by rw [← zpow_add₀ h2]; ring_nf
    _ ≤ (2:ℚ) ^ ((A:ℤ) - B + 1) * b := mul_le_mul_of_nonneg_left qb1 (zpow_two_pos _).le
  unfold fracExp
  rw [← hA, ← hB]
  rcases hcase : ltPow2 a b ((A : ℤ) - B) with hf | ht
  · -- not below 2^(A-B): the exponent is A - B
    have : ¬ ((a:ℚ) / b < (2:ℚ) ^ ((A:ℤ) - B)) := by
      rw [← ltPow2_iff a b _ hb, hcase]
      simp
    simp only [hcase, Bool.false_eq_true, if_false]
    exact ⟨le_of_not_lt this, claim2⟩
  · -- below 2^(A-B): the exponent is A - B - 1
    have hlt : (a:ℚ) / b < (2:ℚ) ^ ((A:ℤ) - B) := by
      rw [← ltPow2_iff a b _ hb, hcase]
    simp only [hcase, if_true]
    constructor
    · exact claim1.le
    · have : (A:ℤ) - B - 1 + 1 = (A:ℤ) - B := by ring
      rw [this]
      exact hlt

theorem rheFrac_scaled_dist (c d : ℕ) (q u : ℚ) (hd : 0 < d) (hu : 0 < u)
    (hx : (c:ℚ) / d = q / u) :
    |(rheFrac c d : ℚ) * u - q| ≤ u / 2 := by
  have h1 := rheFrac_dist c d hd
  rw [hx] at h1
  have heq : (rheFrac c d : ℚ) * u - q = ((rheFrac c d : ℚ) - q / u) * u := by
    field_simp
  rw [heq, abs_mul, abs_of_pos hu]
  calc |(rheFrac c d : ℚ) - q / u| * u ≤ (1/2) * u :=
        mul_le_mul_of_nonneg_right h1 hu.le
  _ = u / 2 := by ring

theorem floatFrac_dist (a b : ℕ) (hb : 0 < b) :
    |fval (floatFrac a b) - (a:ℚ) / b| ≤ ((a:ℚ) / b) * (2:ℚ) ^ (-53 : ℤ) := by
  by_cases ha : a = 0
  · subst ha
    simp [floatFrac, fval]
  · have ha' : 0 < a := Nat.pos_of_ne_zero ha
    have hb0 : (0:ℚ) < (b:ℚ) := by exact_mod_cast hb
    obtain ⟨hbr1, hbr2⟩ := fracExp_bracket a b ha' hb
    set n := fracExp a b with hn
    have hu : (0:ℚ) < (2:ℚ) ^ (n - 52) := zpow_two_pos _
    have hhalf : (2:ℚ) ^ (n - 52) / 2 ≤ ((a:ℚ) / b) * (2:ℚ) ^ (-53 : ℤ) := by
      have e1 : (2:ℚ) ^ (n - 52) / 2 = (2:ℚ) ^ (n : ℤ) * (2:ℚ) ^ (-53 : ℤ) := by
        rw [← zpow_add₀ (by norm_num : (2:ℚ) ≠ 0)]
        rw [show n + -53 = n - 52 - 1 by ring]
        rw [zpow_sub_one₀ (by norm_num : (2:ℚ) ≠ 0)]
        ring
      rw [e1]
      exact mul_le_mul_of_nonneg_right hbr1 (zpow_two_pos _).le
    unfold floatFrac
    rw [if_neg ha, ← hn]
    split
    · rename_i h52
      have htn : (((n - 52).toNat : ℤ)) = n - 52 := Int.toNat_of_nonneg (by omega)
      have hd : 0 < b * 2 ^ (n - 52).toNat := by positivity
      have hx : ((b * 2 ^ (n - 52).toNat : ℕ) : ℚ) = (b:ℚ) * (2:ℚ) ^ (n - 52) := by
        push_cast
        rw [← zpow_natCast (2:ℚ), htn]
      have hxx : ((a:ℚ)) / ((b * 2 ^ (n - 52).toNat : ℕ) : ℚ) =
          ((a:ℚ) / b) / (2:ℚ) ^ (n - 52) := by
        rw [hx, div_div]
      have := rheFrac_scaled_dist a (b * 2 ^ (n - 52).toNat) ((a:ℚ)/b)
        ((2:ℚ) ^ (n - 52)) hd hu hxx
      simp only [fval]
      exact le_trans this hhalf
    · rename_i h52
      have htn : (((52 - n).toNat : ℤ)) = 52 - n := Int.toNat_of_nonneg (by omega)
      have hx : ((a * 2 ^ (52 - n).toNat : ℕ) : ℚ) = (a:ℚ) * (2:ℚ) ^ (52 - n) := by
        push_cast
        rw [← zpow_natCast (2:ℚ), htn]
      have hxx : ((a * 2 ^ (52 - n).toNat : ℕ) : ℚ) / (b : ℚ) =
          ((a:ℚ) / b) / (2:ℚ) ^ (n - 52) := by
        rw [hx, div_eq_mul_inv ((a:ℚ) / b), ← zpow_neg,
          show -(n - 52) = 52 - n by ring]
        ring
      have := rheFrac_scaled_dist (a * 2 ^ (52 - n).toNat) b ((a:ℚ)/b)
        ((2:ℚ) ^ (n - 52)) hb hu hxx
      simp only [fval]
      exact le_trans this hhalf

theorem floatFrac_int (k : ℕ) (hk1 : 1 ≤ k) (hk2 : k ≤ 2 ^ 52) :
    fval (floatFrac k 1) = (k : ℚ) := by
  obtain ⟨hbr1, hbr2⟩ := fracExp_bracket k 1 hk1 one_pos
  rw [Nat.cast_one, div_one] at hbr1 hbr2
  set n := fracExp k 1 with hn
  have hn52 : n ≤ 52 := by
    by_contra hc
    have h1 : (2:ℚ) ^ (53 : ℤ) ≤ (2:ℚ) ^ n :=
      zpow_le_zpow_right₀ (by norm_num) (by omega)
    have h2 : (k : ℚ) ≤ (2:ℚ) ^ (52 : ℤ) := by
      rw [show (52 : ℤ) = ((52 : ℕ) : ℤ) by rfl, ← cast_pow2]
      exact_mod_cast hk2
    have h3 : (2:ℚ) ^ (53 : ℤ) ≤ (2:ℚ) ^ (52 : ℤ) := by linarith
    rw [show (53:ℤ) = 52 + 1 by norm_num, zpow_add₀ (by norm_num : (2:ℚ) ≠ 0)] at h3
    have := zpow_two_pos (52 : ℤ)
    nlinarith
  unfold floatFrac
  rw [if_neg (by omega : ¬ k = 0), ← hn]
  rcases lt_or_ge n 52 with hlt | hge
  · rw [if_neg (by omega)]
    have htn : (((52 - n).toNat : ℤ)) = 52 - n := Int.toNat_of_nonneg (by omega)
    simp only [fval, rheFrac_one]
    push_cast
    rw [← zpow_natCast (2:ℚ) (52 - n).toNat, htn, mul_assoc,
      ← zpow_add₀ (by norm_num : (2:ℚ) ≠ 0), show 52 - n + (n - 52) = 0 by ring,
      zpow_zero, mul_one]
  · have hn52' : n = 52 := by omega
    rw [if_pos (by omega)]
    simp only [fval, hn52']
    norm_num [rheFrac_one]

theorem pyRound_dist (x : ℕ × ℤ) :
    |(pyRound x : ℚ) - fval x| ≤ 1 / 2 := by
  unfold pyRound
  split
  · rename_i he
    have : ((x.1 * 2 ^ x.2.toNat : ℕ) : ℚ) = fval x := by
      simp only [fval]
      push_cast
      rw [← zpow_natCast (2:ℚ), Int.toNat_of_nonneg he]
    rw [this]
    simp
  · rename_i he
    have hpos : 0 < 2 ^ (-x.2).toNat := Nat.pos_pow_of_pos _ (by norm_num)
    have hx : ((x.1 : ℚ)) / ((2 ^ (-x.2).toNat : ℕ) : ℚ) = fval x := by
      simp only [fval]
      rw [cast_pow2, Int.toNat_of_nonneg (by omega : (0:ℤ) ≤ -x.2)]
      rw [div_eq_mul_inv, ← zpow_neg, neg_neg]
    have := rheFrac_dist x.1 (2 ^ (-x.2).toNat) hpos
    rw [hx] at this
    exact this

theorem pyRound_eq_of_mem (x : ℕ × ℤ) (m : ℕ)
    (h1 : (m : ℚ) - 1/2 < fval x) (h2 : fval x < (m : ℚ) + 1/2) :
    pyRound x = m := by
  unfold pyRound
  split
  · rename_i he
    have hcast : ((x.1 * 2 ^ x.2.toNat : ℕ) : ℚ) = fval x := by
      simp only [fval]
      push_cast
      rw [← zpow_natCast (2:ℚ), Int.toNat_of_nonneg he]
    have hl : (m : ℚ) < ((x.1 * 2 ^ x.2.toNat : ℕ) : ℚ) + 1 := by rw [hcast]; linarith
    have hr : ((x.1 * 2 ^ x.2.toNat : ℕ) : ℚ) < (m : ℚ) + 1 := by rw [hcast]; linarith
    have hl' : m < x.1 * 2 ^ x.2.toNat + 1 := by exact_mod_cast hl
    have hr' : x.1 * 2 ^ x.2.toNat < m + 1 := by exact_mod_cast hr
    omega
  · rename_i he
    have hpos : 0 < 2 ^ (-x.2).toNat := Nat.pos_pow_of_pos _ (by norm_num)
    have hx : ((x.1 : ℚ)) / ((2 ^ (-x.2).toNat : ℕ) : ℚ) = fval x := by
      simp only [fval]
      rw [cast_pow2, Int.toNat_of_nonneg (by omega : (0:ℤ) ≤ -x.2)]
      rw [div_eq_mul_inv, ← zpow_neg, neg_neg]
    exact rheFrac_eq_of_mem _ _ m hpos (by rw [hx]; exact h1) (by rw [hx]; exact h2)

theorem floatMul_dist (x y : ℕ × ℤ) :
    |fval (floatMul x y) - fval x * fval y| ≤ (fval x * fval y) * (2:ℚ) ^ (-53 : ℤ) := by
  unfold floatMul
  split
  · rename_i he
    have hkey : ((x.1 * y.1 * 2 ^ (x.2 + y.2).toNat : ℕ) : ℚ) / ((1 : ℕ) : ℚ) =
        fval x * fval y := by
      simp only [fval]
      push_cast
      rw [div_one, ← zpow_natCast (2:ℚ), Int.toNat_of_nonneg he,
        zpow_add₀ (by norm_num : (2:ℚ) ≠ 0)]
      ring
    have := floatFrac_dist (x.1 * y.1 * 2 ^ (x.2 + y.2).toNat) 1 one_pos
    rw [hkey] at this
    exact this
  · rename_i he
    have hpos : 0 < 2 ^ (-(x.2 + y.2)).toNat := Nat.pos_pow_of_pos _ (by norm_num)
    have hkey : ((x.1 * y.1 : ℕ) : ℚ) / ((2 ^ (-(x.2 + y.2)).toNat : ℕ) : ℚ) =
        fval x * fval y := by
      simp only [fval]
      rw [cast_pow2, Int.toNat_of_nonneg (by omega : (0:ℤ) ≤ -(x.2 + y.2))]
      push_cast
      rw [div_eq_mul_inv, ← zpow_neg, neg_neg,
        zpow_add₀ (by norm_num : (2:ℚ) ≠ 0)]
      ring
    have := floatFrac_dist (x.1 * y.1) (2 ^ (-(x.2 + y.2)).toNat) hpos
    rw [hkey] at this
    exact this

theorem fval_nonneg (x : ℕ × ℤ) : 0 ≤ fval x := by
  unfold fval
  positivity

theorem eps_pos : (0:ℚ) < (2:ℚ) ^ (-53 : ℤ) := zpow_two_pos _

theorem eps_small : (2:ℚ) ^ (-53 : ℤ) ≤ 1/1000 := by
  rw [zpow_neg, show (53 : ℤ) = ((53 : ℕ) : ℤ) by rfl, zpow_natCast]
  rw [inv_le_comm₀ (by positivity) (by norm_num)]
  norm_num

theorem eps_eq : (2:ℚ) ^ (-53 : ℤ) = (1:ℚ) / 2 ^ 53 := by
  norm_num [zpow_neg]

/-- Accumulated relative error of the percentage computation: division,
int-to-float conversion (exact here) and multiplication leave the float
result within `300 · 2⁻⁵³` of the exact ratio `100k/t`. -/
theorem pyPercentage_float_dist (k t : ℕ) (ht : 0 < t) (hk1 : 1 ≤ k)
    (hk : k ≤ t) (ht2 : t ≤ 2 ^ 40) :
    |fval (floatMul (floatFrac 100 t) (floatFrac k 1)) - (100 * k : ℚ) / t| ≤
      300 * (2:ℚ) ^ (-53 : ℤ) := by
  have ht0 : (0:ℚ) < (t:ℚ) := by exact_mod_cast ht
  set e : ℚ := (2:ℚ) ^ (-53 : ℤ) with he
  have he0 : 0 < e := eps_pos
  have he1 : e ≤ 1/1000 := eps_small
  set v1 := fval (floatFrac 100 t) with hv1def
  set P := fval (floatMul (floatFrac 100 t) (floatFrac k 1)) with hPdef
  have hv1n : 0 ≤ v1 := fval_nonneg _
  have hKn : (0:ℚ) ≤ (k:ℚ) := by positivity
  -- the int operand converts exactly
  have hv2 : fval (floatFrac k 1) = (k : ℚ) := by
    apply floatFrac_int k hk1
    calc k ≤ t := hk
    _ ≤ 2 ^ 40 := ht2
    _ ≤ 2 ^ 52 := by norm_num
  have h1 := floatFrac_dist 100 t ht
  push_cast at h1
  rw [← hv1def] at h1
  have h3 := floatMul_dist (floatFrac 100 t) (floatFrac k 1)
  rw [hv2, ← hv1def, ← hPdef, ← he] at h3
  rw [← he] at h1
  set A : ℚ := (100 : ℚ) / t with hA
  have hApos : 0 < A := by positivity
  have hr : A * k = (100 * k : ℚ) / t := by
    rw [hA]
    push_cast
    ring
  have hrn : (0:ℚ) ≤ A * k := by positivity
  have hr100 : A * (k:ℚ) ≤ 100 := by
    rw [hr, div_le_iff₀ ht0]
    have : (k : ℚ) ≤ (t : ℚ) := by exact_mod_cast hk
    nlinarith
  have hv1up : v1 ≤ A + A * e := by
    have := (abs_le.mp h1).2
    linarith
  have hprod : |v1 * k - A * k| ≤ A * k * e := by
    have hfac : v1 * k - A * k = (v1 - A) * k := by ring
    rw [hfac, abs_mul, abs_of_nonneg hKn]
    calc |v1 - A| * k ≤ (A * e) * k := mul_le_mul_of_nonneg_right h1 hKn
    _ = A * k * e := by ring
  have hv1K : v1 * k ≤ A * k + A * k * e := by
    calc v1 * (k:ℚ) ≤ (A + A * e) * k := mul_le_mul_of_nonneg_right hv1up hKn
    _ = A * k + A * k * e := by ring
  have hstep : |P - A * k| ≤ v1 * k * e + A * k * e := by
    calc |P - A * k| = |(P - v1 * k) + (v1 * k - A * k)| := by ring_nf
    _ ≤ |P - v1 * k| + |v1 * k - A * k| := abs_add _ _
    _ ≤ v1 * k * e + A * k * e := add_le_add h3 hprod
  have hv1Ke : v1 * k * e ≤ (A * k + A * k * e) * e :=
    mul_le_mul_of_nonneg_right hv1K he0.le
  have hsq : A * k * e * e ≤ A * k * e * (1/1000) :=
    mul_le_mul_of_nonneg_left he1 (by positivity)
  have hAke : A * k * e ≤ 100 * e :=
    mul_le_mul_of_nonneg_right hr100 he0.le
  rw [← hr]
  rw [abs_le] at hstep ⊢
  obtain ⟨hs1, hs2⟩ := hstep
  clear_value e v1 P A
  constructor <;> linarith

/-- The float percentage is within the claims' bounds: for a nonempty
attendance group it never exceeds 100. -/
theorem pyPercentage_le_100 (k t : ℕ) (ht : 0 < t) (hk : k ≤ t) :
    pyPercentage k t ≤ 100 := by
  have ht0 : (0:ℚ) < (t:ℚ) := by exact_mod_cast ht
  set e : ℚ := (2:ℚ) ^ (-53 : ℤ) with he
  have he0 : 0 < e := eps_pos
  have he1 : e ≤ 1/1000 := eps_small
  set v1 := fval (floatFrac 100 t) with hv1def
  set v2 := fval (floatFrac k 1) with hv2def
  set P := fval (floatMul (floatFrac 100 t) (floatFrac k 1)) with hPdef
  have hv1n : 0 ≤ v1 := fval_nonneg _
  have hv2n : 0 ≤ v2 := fval_nonneg _
  have hPn : 0 ≤ P := fval_nonneg _
  have h1 := floatFrac_dist 100 t ht
  push_cast at h1
  rw [← hv1def, ← he] at h1
  have h2 := floatFrac_dist k 1 one_pos
  push_cast at h2
  rw [div_one, ← hv2def, ← he] at h2
  have h3 := floatMul_dist (floatFrac 100 t) (floatFrac k 1)
  rw [← hv1def, ← hv2def, ← hPdef, ← he] at h3
  set A : ℚ := (100 : ℚ) / t with hA
  have hApos : 0 < A := by positivity
  have hKn : (0:ℚ) ≤ (k:ℚ) := by positivity
  clear_value e v1 v2 P A
  have hr100 : A * (k:ℚ) ≤ 100 := by
    rw [hA, div_mul_eq_mul_div, div_le_iff₀ ht0]
    have : (k : ℚ) ≤ (t : ℚ) := by exact_mod_cast hk
    nlinarith
  have hv1up : v1 ≤ A * (1 + e) := by
    have := (abs_le.mp h1).2
    nlinarith
  have hv2up : v2 ≤ (k:ℚ) * (1 + e) := by
    have := (abs_le.mp h2).2
    nlinarith
  have h1e : (0:ℚ) ≤ 1 + e := by linarith
  have hv12 : v1 * v2 ≤ A * k * (1 + e) ^ 2 := by
    calc v1 * v2 ≤ (A * (1 + e)) * ((k:ℚ) * (1 + e)) :=
          mul_le_mul hv1up hv2up hv2n (by positivity)
    _ = A * k * (1 + e) ^ 2 := by ring
  have hPup : P ≤ A * k * (1 + e) ^ 3 := by
    have hup := (abs_le.mp h3).2
    have : v1 * v2 * e ≤ A * k * (1 + e) ^ 2 * e :=
      mul_le_mul_of_nonneg_right hv12 he0.le
    nlinarith
  have hcap : A * k * (1 + e) ^ 3 ≤ 100 * (1 + e) ^ 3 :=
    mul_le_mul_of_nonneg_right hr100 (by positivity)
  have hpow : (1 + e) ^ 3 ≤ (1001/1000 : ℚ) ^ 3 :=
    pow_le_pow_left (by linarith) (by linarith) 3
  have hP105 : P < 100 + 1/2 := by
    have : (100:ℚ) * (1 + e) ^ 3 ≤ 100 * (1001/1000 : ℚ) ^ 3 := by nlinarith
    have hnum : (100:ℚ) * (1001/1000 : ℚ) ^ 3 < 100 + 1/2 := by norm_num
    linarith
  have hpr := pyRound_dist (floatMul (floatFrac 100 t) (floatFrac k 1))
  rw [← hPdef] at hpr
  have : (pyPercentage k t : ℚ) < 101 := by
    have := (abs_le.mp hpr).2
    unfold pyPercentage
    linarith
  have : pyPercentage k t < 101 := by exact_mod_cast this
  omega


/-- On realistic group sizes, whenever the exact ratio `100k/t` is not an
exact half-integer tie, the float percentage computed by the code agrees
with rounding the exact rational (under any tie rule). -/
theorem pyPercentage_eq_spec (k t : ℕ) (ht : 0 < t) (ht2 : t ≤ 2 ^ 40)
    (hk : k ≤ t) (hnotie : ¬ (t ∣ 200 * k ∧ (200 * k / t) % 2 = 1)) :
    pyPercentage k t = specPercentage k t := by
  by_cases hk0 : k = 0
  · subst hk0
    have h1 : specPercentage 0 t = 0 := by
      unfold specPercentage
      simp [rheFrac, Nat.zero_div, Nat.zero_mod, ht]
    have h2 : pyPercentage 0 t = 0 := by
      unfold pyPercentage
      have hf : floatFrac 0 1 = (0, 0) := by simp [floatFrac]
      rw [hf]
      unfold floatMul
      split <;> simp [floatFrac, pyRound]
    rw [h1, h2]
  · have hk1 : 1 ≤ k := Nat.pos_of_ne_zero hk0
    have ht0 : (0:ℚ) < (t:ℚ) := by exact_mod_cast ht
    have htne : (t:ℚ) ≠ 0 := ht0.ne'
    have h2t0 : (0:ℚ) < 2 * t := by positivity
    set m := rheFrac (100 * k) t with hm
    set R : ℚ := (100 * (k:ℚ)) / t with hRdef
    have hdist : |(m:ℚ) - R| ≤ 1/2 := by
      have hd := rheFrac_dist (100 * k) t ht
      push_cast at hd
      rw [← hRdef] at hd
      exact hd
    have htie : ∀ q : ℕ, q % 2 = 1 → 200 * k ≠ q * t := by
      intro q hq hEq
      apply hnotie
      refine ⟨⟨q, by rw [hEq, Nat.mul_comm]⟩, ?_⟩
      have hdiv : 200 * k / t = q := by rw [hEq, Nat.mul_div_cancel _ ht]
      omega
    have hR2t : R * (2 * t) = 200 * (k:ℚ) := by
      rw [hRdef]
      field_simp
      ring
    -- upper margin: the tie-free bound 200k + 1 ≤ (2m+1)t
    have hubQ : R ≤ (m:ℚ) + 1/2 := by
      have hd := (abs_le.mp hdist).1
      linarith
    have hub : 200 * k ≤ (2 * m + 1) * t := by
      have hq : R * (2 * t) ≤ ((m:ℚ) + 1/2) * (2 * t) :=
        mul_le_mul_of_nonneg_right hubQ h2t0.le
      rw [hR2t] at hq
      have hcast : (200 * (k:ℚ)) ≤ (((2 * m + 1) * t : ℕ) : ℚ) := by
        push_cast
        nlinarith
      exact_mod_cast hcast
    have hub1 : 200 * k + 1 ≤ (2 * m + 1) * t := by
      have hne := htie (2 * m + 1) (by omega)
      omega
    have hRub : R ≤ (m:ℚ) + 1/2 - 1/(2*t) := by
      have hcast : (200 * (k:ℚ)) + 1 ≤ (2 * (m:ℚ) + 1) * t := by
        have hc2 : ((200 * k + 1 : ℕ) : ℚ) ≤ (((2 * m + 1) * t : ℕ) : ℚ) := by
          exact_mod_cast hub1
        push_cast at hc2
        linarith
      calc R = (R * (2 * t)) / (2 * t) := by field_simp
      _ ≤ (((m:ℚ) + 1/2) * (2 * t) - 1) / (2 * t) := by
          gcongr
          rw [hR2t]
          nlinarith
      _ = (m:ℚ) + 1/2 - 1/(2*t) := by
          field_simp
    -- distance of the float value from the exact ratio
    have hfd := pyPercentage_float_dist k t ht hk1 hk ht2
    have hfd' : |fval (floatMul (floatFrac 100 t) (floatFrac k 1)) - R| ≤
        300 * (2:ℚ) ^ (-53 : ℤ) := by
      rwa [← hRdef] at hfd
    set P := fval (floatMul (floatFrac 100 t) (floatFrac k 1)) with hP
    -- the margin dominates the float error
    have hgap : 300 * ((1:ℚ) / 2 ^ 53) < 1/(2*t) := by
      have h2t41 : 2 * (t:ℚ) ≤ 2 ^ 41 := by
        have : ((2 * t : ℕ) : ℚ) ≤ ((2 ^ 41 : ℕ) : ℚ) := by
          exact_mod_cast (by omega : 2 * t ≤ 2 ^ 41)
        push_cast at this
        linarith
      have hmono : (1:ℚ) / 2 ^ 41 ≤ 1 / (2 * t) :=
        one_div_le_one_div_of_le h2t0 h2t41
      calc 300 * ((1:ℚ) / 2 ^ 53) < (1:ℚ) / 2 ^ 41 := by norm_num
      _ ≤ 1 / (2 * (t:ℚ)) := hmono
    rw [eps_eq] at hfd'
    clear_value m R P
    have hPub : P < (m:ℚ) + 1/2 := by
      have hd := (abs_le.mp hfd').2
      linarith
    have hPlb : (m:ℚ) - 1/2 < P := by
      rcases Nat.eq_zero_or_pos m with hm0 | hm1
      · have hPn : 0 ≤ P := by rw [hP]; exact fval_nonneg _
        rw [hm0]
        push_cast
        linarith
      · -- lower margin: the tie-free bound (2m-1)t + 1 ≤ 200k
        have hlbQ : (m:ℚ) - 1/2 ≤ R := by
          have hd := (abs_le.mp hdist).2
          linarith
        have hlb : (2 * m - 1) * t ≤ 200 * k := by
          have hq : ((m:ℚ) - 1/2) * (2 * t) ≤ R * (2 * t) :=
            mul_le_mul_of_nonneg_right hlbQ h2t0.le
          rw [hR2t] at hq
          have hcast : (((2 * m - 1) * t : ℕ) : ℚ) ≤ 200 * (k:ℚ) := by
            push_cast [Nat.cast_sub (by omega : 1 ≤ 2 * m)]
            nlinarith
          exact_mod_cast hcast
        have hlb1 : (2 * m - 1) * t + 1 ≤ 200 * k := by
          have hne := htie (2 * m - 1) (by omega)
          omega
        have hRlb : (m:ℚ) - 1/2 + 1/(2*t) ≤ R := by
          have hcast : (2 * (m:ℚ) - 1) * t + 1 ≤ 200 * (k:ℚ) := by
            have hc2 : (((2 * m - 1) * t + 1 : ℕ) : ℚ) ≤ ((200 * k : ℕ) : ℚ) := by
              exact_mod_cast hlb1
            push_cast [Nat.cast_sub (by omega : 1 ≤ 2 * m)] at hc2
            linarith
          calc (m:ℚ) - 1/2 + 1/(2*t) = (((m:ℚ) - 1/2) * (2 * t) + 1) / (2 * t) := by
                field_simp
          _ ≤ (R * (2 * t)) / (2 * t) := by
              gcongr
              rw [hR2t]
              nlinarith
          _ = R := by field_simp
        have hd := (abs_le.mp hfd').1
        linarith
    have hfinal : pyRound (floatMul (floatFrac 100 t) (floatFrac k 1)) = m := by
      apply pyRound_eq_of_mem _ m
      · rw [← hP]; exact hPlb
      · rw [← hP]; exact hPub
    unfold pyPercentage specPercentage
    rw [hfinal, hm]

/-! ### Dates and `calculate_age`

`calculate_age(today, date_of_birth)` returns `relativedelta(today, dob).years`.
dateutil computes `months = (dt1.year - dt2.year) * 12 + (dt1.month - dt2.month)`,
forms `dtm = dt2 + months` (normalising the month offset with `divmod` by 12 —
floor semantics — and clamping the day to the target month's length), then
moves `months` one step towards `dt1` if `dtm` overshot; the adjustment loop
runs at most once because a one-month step always crosses `dt1`.  Finally
`years` is `months` divided by 12 truncating towards zero (`_set_months`). -/

structure Date where
  year : ℕ
  month : ℕ
  day : ℕ
deriving DecidableEq

/-- Gregorian leap year (as `calendar.isleap`). -/
def isLeap (y : ℤ) : Bool :=
  decide (y % 4 = 0) && (decide (¬ y % 100 = 0) || decide (y % 400 = 0))

/-- `calendar.monthrange(y, m)[1]`. -/
def daysInMonth (y m : ℤ) : ℤ :=
  if m = 2 then (if isLeap y then 29 else 28)
  else if m = 4 ∨ m = 6 ∨ m = 9 ∨ m = 11 then 30
  else 31

/-- The ranges `datetime.date` accepts. -/
def Date.Valid (d : Date) : Prop :=
  1 ≤ d.year ∧ d.year ≤ 9999 ∧ 1 ≤ d.month ∧ d.month ≤ 12 ∧
    1 ≤ d.day ∧ (d.day : ℤ) ≤ daysInMonth d.year d.month

instance (d : Date) : Decidable d.Valid := by
  unfold Date.Valid
  infer_instance

/-- Python's ordering on `datetime.date`: lexicographic on (year, month, day). -/
def dateLT (a b : Date) : Bool :=
  decide (a.year < b.year) ||
    (decide (a.year = b.year) &&
      (decide (a.month < b.month) ||
        (decide (a.month = b.month) && decide (a.day < b.day))))

/-- Lexicographic strict order on (year, month, day) triples of integers. -/
def tripleLT (a b : ℤ × ℤ × ℤ) : Bool :=
  decide (a.1 < b.1) ||
    (decide (a.1 = b.1) &&
      (decide (a.2.1 < b.2.1) ||
        (decide (a.2.1 = b.2.1) && decide (a.2.2 < b.2.2))))

def Date.toTriple (d : Date) : ℤ × ℤ × ℤ := ((d.year : ℤ), (d.month : ℤ), (d.day : ℤ))

/-- `dt2 + relativedelta(months=mo)`: month arithmetic with floor-normalised
offset and the day clamped to the length of the target month. -/
def addMonths (d : Date) (mo : ℤ) : ℤ × ℤ × ℤ :=
  ((12 * (d.year : ℤ) + ((d.month : ℤ) - 1) + mo) / 12,
   (12 * (d.year : ℤ) + ((d.month : ℤ) - 1) + mo) % 12 + 1,
   min (d.day : ℤ)
     (daysInMonth ((12 * (d.year : ℤ) + ((d.month : ℤ) - 1) + mo) / 12)
       ((12 * (d.year : ℤ) + ((d.month : ℤ) - 1) + mo) % 12 + 1)))

/-- `divmod(months, 12)` after `_set_months`: truncation towards zero. -/
def truncDiv12 (mv : ℤ) : ℤ :=
  if mv < 0 then -(((-mv).toNat / 12 : ℕ) : ℤ) else ((mv.toNat / 12 : ℕ) : ℤ)

/-- `calculate_age(today, date_of_birth) = relativedelta(today, dob).years`. -/
def calculate_age (today date_of_birth : Date) : ℤ :=
  if dateLT today date_of_birth then
    (if tripleLT
        (addMonths date_of_birth
          (12 * ((today.year : ℤ) - date_of_birth.year) +
            ((today.month : ℤ) - date_of_birth.month)))
        today.toTriple then
      truncDiv12 (12 * ((today.year : ℤ) - date_of_birth.year) +
        ((today.month : ℤ) - date_of_birth.month) + 1)
    else
      truncDiv12 (12 * ((today.year : ℤ) - date_of_birth.year) +
        ((today.month : ℤ) - date_of_birth.month)))
  else
    (if tripleLT today.toTriple
        (addMonths date_of_birth
          (12 * ((today.year : ℤ) - date_of_birth.year) +
            ((today.month : ℤ) - date_of_birth.month))) then
      truncDiv12 (12 * ((today.year : ℤ) - date_of_birth.year) +
        ((today.month : ℤ) - date_of_birth.month) - 1)
    else
      truncDiv12 (12 * ((today.year : ℤ) - date_of_birth.year) +
        ((today.month : ℤ) - date_of_birth.month)))

example : calculate_age ⟨2020, 6, 1⟩ ⟨2005, 1, 22⟩ = 15 := by decide
example : calculate_age ⟨2020, 6, 1⟩ ⟨2020, 6, 1⟩ = 0 := by decide
example : calculate_age ⟨2007, 2, 27⟩ ⟨2004, 2, 29⟩ = 2 := by decide
example : calculate_age ⟨2007, 2, 28⟩ ⟨2004, 2, 29⟩ = 3 := by decide
example : calculate_age ⟨2008, 2, 28⟩ ⟨2004, 2, 29⟩ = 3 := by decide
example : calculate_age ⟨2008, 2, 29⟩ ⟨2004, 2, 29⟩ = 4 := by decide

theorem daysInMonth_ge_28 (y m : ℤ) : 28 ≤ daysInMonth y m := by
  unfold daysInMonth
  split
  · split <;> norm_num
  · split <;> norm_num

theorem daysInMonth_feb_le (y : ℤ) : daysInMonth y 2 ≤ 29 := by
  unfold daysInMonth
  rw [if_pos rfl]
  split <;> norm_num

theorem daysInMonth_congr (y1 y2 m : ℤ) (hm : m ≠ 2) :
    daysInMonth y1 m = daysInMonth y2 m := by
  unfold daysInMonth
  rw [if_neg hm, if_neg hm]

theorem tripleLT_same (c1 c2 z w : ℤ) :
    tripleLT (c1, c2, z) (c1, c2, w) = decide (z < w) := by
  simp [tripleLT]

/-- Closed form of `calculate_age` for valid dates `dob ≤ today` whose
birthday exists in every year (not Feb 29): the whole calendar years
elapsed, i.e. the year difference minus one when (month, day) of `today`
precedes (month, day) of `dob`. -/
theorem calculate_age_closed (today dob : Date) (hvt : today.Valid) (hvd : dob.Valid)
    (hle : dateLT today dob = false) (hnl : ¬ (dob.month = 2 ∧ dob.day = 29)) :
    calculate_age today dob =
      (today.year : ℤ) - dob.year -
        (if today.month < dob.month ∨ (today.month = dob.month ∧ today.day < dob.day)
          then 1 else 0) := by
  obtain ⟨ht1, ht2, ht3, ht4, ht5, ht6⟩ := hvt
  obtain ⟨hd1, hd2, hd3, hd4, hd5, hd6⟩ := hvd
  have hord : ¬ (today.year < dob.year ∨ (today.year = dob.year ∧
      (today.month < dob.month ∨ (today.month = dob.month ∧ today.day < dob.day)))) := by
    intro hcon
    have hc : dateLT today dob = true := by
      simp only [dateLT, Bool.or_eq_true, Bool.and_eq_true, decide_eq_true_eq]
      exact hcon
    rw [hle] at hc
    exact Bool.false_ne_true hc
  have hD : today.month = dob.month →
      (dob.day : ℤ) ≤ daysInMonth (today.year : ℤ) (today.month : ℤ) := by
    intro hm
    by_cases h2 : dob.month = 2
    · have h29 : daysInMonth (dob.year : ℤ) (dob.month : ℤ) ≤ 29 := by
        rw [show ((dob.month : ℤ)) = 2 by exact_mod_cast h2]
        exact daysInMonth_feb_le _
      have hne : dob.day ≠ 29 := fun h => hnl ⟨h2, h⟩
      have hne' : (dob.day : ℤ) ≠ 29 := by exact_mod_cast hne
      have h28 : 28 ≤ daysInMonth (today.year : ℤ) (today.month : ℤ) :=
        daysInMonth_ge_28 _ _
      omega
    · have heq : daysInMonth (today.year : ℤ) (today.month : ℤ) =
          daysInMonth (dob.year : ℤ) (dob.month : ℤ) := by
        rw [hm]
        exact daysInMonth_congr _ _ _ (by exact_mod_cast h2)
      rw [heq]
      exact hd6
  have htot : 12 * (dob.year : ℤ) + ((dob.month : ℤ) - 1) +
      (12 * ((today.year : ℤ) - dob.year) + ((today.month : ℤ) - dob.month)) =
      12 * (today.year : ℤ) + ((today.month : ℤ) - 1) := by
    ring
  have hdiv : (12 * (today.year : ℤ) + ((today.month : ℤ) - 1)) / 12 =
      (today.year : ℤ) := by
    omega
  have hmod : (12 * (today.year : ℤ) + ((today.month : ℤ) - 1)) % 12 + 1 =
      (today.month : ℤ) := by
    omega
  unfold calculate_age
  simp only [hle, Bool.false_eq_true, if_false]
  unfold addMonths Date.toTriple
  rw [htot, hdiv, hmod, tripleLT_same]
  simp only [decide_eq_true_eq]
  unfold truncDiv12
  rcases min_cases ((dob.day : ℤ)) (daysInMonth (today.year : ℤ) (today.month : ℤ))
    with ⟨hmin, hside⟩ | ⟨hmin, hside⟩ <;> rw [hmin] <;> split_ifs <;> omega

/-! ### Domain model (src/edustudio/web/handlers.py) -/

namespace Edustudio

inductive Gender
  | FEMALE
  | MALE
deriving DecidableEq

inductive Status
  | NONE
  | BREAK
deriving DecidableEq

inductive Period
  | AM
  | PM
deriving DecidableEq

structure TimeSlot where
  hours : ℕ
  minutes : ℕ
  period : Period
deriving DecidableEq

structure Class where
  id : ℕ
  name : String
  time_slot : TimeSlot
deriving DecidableEq

structure ContactInfo where
  parent_phone_number : String
  student_phone_number : String := ""
deriving DecidableEq

inductive AttendanceStatus
  | ABSENT
  | LATE
  | PRESENT
deriving DecidableEq

structure Attendance where
  date : Date
  class_ : Class
  status : AttendanceStatus
deriving DecidableEq

structure Student where
  id : ℕ
  name : String
  date_of_birth : Date
  gender : Gender
  date_joined : Date
  status : Status
  contact : ContactInfo
  classes : List Class := []
  attendances : List Attendance := []
deriving DecidableEq

structure ListableStudent where
  id : String
  name : String
  status : String
  classes : List String := []
deriving DecidableEq

structure StudentDetail where
  id : String
  name : String
  age : ℤ
  gender : String
  parent_phone_number : String
  date_joined : String
  status : String
  classes : List String := []
deriving DecidableEq

structure StudentProfile where
  id : String
  name : String
  parent_phone_number : String
  status : String
deriving DecidableEq

structure AttendanceRecord where
  class_name : String
  days_absent : ℕ
  days_late : ℕ
  days_present : ℕ
  total_days : ℕ
  percentage : ℕ
deriving DecidableEq

structure StudentListView where
  students : List ListableStudent
deriving DecidableEq

structure StudentDetailView where
  student_profile : StudentProfile
  student_detail : StudentDetail
deriving DecidableEq

structure StudentAttendanceView where
  student_profile : StudentProfile
  attendance_records : List AttendanceRecord
  today : Date
deriving DecidableEq

/-- `str(uuid)`: the 128-bit integer written as 32 lowercase hex digits in
8-4-4-4-12 groups. -/
def hexChar (n : ℕ) : Char :=
  if n < 10 then Char.ofNat (48 + n) else Char.ofNat (87 + n)

def hexDigits (n : ℕ) (len : ℕ) : List Char :=
  (List.range len).map fun i => hexChar (n / 16 ^ (len - 1 - i) % 16)

def uuidToString (n : ℕ) : String :=
  let h := hexDigits n 32
  String.mk (h.take 8) ++ "-" ++ String.mk ((h.drop 8).take 4) ++ "-" ++
    String.mk ((h.drop 12).take 4) ++ "-" ++ String.mk ((h.drop 16).take 4) ++ "-" ++
    String.mk (h.drop 20)

/-! #### Presentation formatters -/

/-- `show_period`: dict lookup with default `""` (the default is unreachable
for the two members of the typed `Period`). -/
def show_period (period : Period) : String :=
  (([(Period.AM, "AM"), (Period.PM, "PM")].lookup period).getD "")

/-- `show_class_name`: the f-string
`"{hours}:{minutes}{show_period(period)} {name}"`; `str(int)` never pads. -/
def show_class_name (cls : Class) : String :=
  toString cls.time_slot.hours ++ ":" ++ toString cls.time_slot.minutes ++
    show_period cls.time_slot.period ++ " " ++ cls.name

def show_gender (gender : Gender) : String :=
  (([(Gender.FEMALE, "여"), (Gender.MALE, "남")].lookup gender).getD "")

def show_status (status : Status) : String :=
  (([(Status.NONE, ""), (Status.BREAK, "휴원")].lookup status).getD "")

def pad2 (n : ℕ) : String :=
  if n < 10 then "0" ++ toString n else toString n

def pad4 (n : ℕ) : String :=
  if n < 10 then "000" ++ toString n
  else if n < 100 then "00" ++ toString n
  else if n < 1000 then "0" ++ toString n
  else toString n

/-- `show_date_joined`: `str(datetime.date)`, the ISO form `YYYY-MM-DD`. -/
def show_date_joined (date_joined : Date) : String :=
  pad4 date_joined.year ++ "-" ++ pad2 date_joined.month ++ "-" ++ pad2 date_joined.day

example : show_class_name ⟨0, "국체반 Claire", ⟨6, 20, Period.PM⟩⟩ = "6:20PM 국체반 Claire" := by
  decide
example : show_date_joined ⟨2018, 5, 13⟩ = "2018-05-13" := by decide

/-! #### View-model builders -/

/-- Comparability of the sort keys: Python's tuple comparison on
`(hours, minutes, period)` only reaches the two `Period` values when the
hours and minutes tie, and plain `Enum` members admit no `<`, raising
`TypeError`.  A sort of a list containing such a pair must compare it (two
keys that tie on the first two fields cannot be ordered through any third
element), so `sorted` fails exactly when one exists. -/
def tsComparable (cs : List Class) : Bool :=
  cs.all fun c => cs.all fun d =>
    decide ((c.time_slot.hours = d.time_slot.hours ∧
        c.time_slot.minutes = d.time_slot.minutes) →
      c.time_slot.period = d.time_slot.period)

/-- The effective key order on comparable inputs: lexicographic on
`(hours, minutes)`; ties are resolved by the sort's stability, as in
Python. -/
def tsLE (c d : Class) : Prop :=
  c.time_slot.hours < d.time_slot.hours ∨
    (c.time_slot.hours = d.time_slot.hours ∧ c.time_slot.minutes ≤ d.time_slot.minutes)

instance : DecidableRel tsLE := fun c d => by
  unfold tsLE
  infer_instance

instance : IsTotal Class tsLE :=
  ⟨fun c d => by unfold tsLE; omega⟩

instance : IsTrans Class tsLE :=
  ⟨fun a b c h1 h2 => by unfold tsLE at h1 h2 ⊢; omega⟩

/-- `sorted(student.classes, key=lambda c: c.time_slot)` — a stable sort by
the time-slot tuple, or `TypeError` (`none`) when two slots tie on hours and
minutes but differ in period.  A stable sort of a list under a total
preorder is unique, so the structurally recursive `insertionSort` (stable)
is extensionally the same function as Python's Timsort here. -/
def pySortClasses (cs : List Class) : Option (List Class) :=
  if tsComparable cs then some (cs.insertionSort tsLE) else none

def create_listable_student (student : Student) : Option ListableStudent :=
  (pySortClasses student.classes).map fun cs =>
    { id := uuidToString student.id
      name := student.name
      status := show_status student.status
      classes := cs.map show_class_name }

/-- `[create_listable_student(s) for s in students_]` — an exception from any
element aborts the whole comprehension. -/
def create_student_list_view (students_ : List Student) : Option StudentListView :=
  (students_.mapM create_listable_student).map fun rows => { students := rows }

def create_student_profile (student : Student) : StudentProfile :=
  { id := uuidToString student.id
    name := student.name
    parent_phone_number := student.contact.parent_phone_number
    status := show_status student.status }

def create_student_detail (today : Date) (student : Student) : Option StudentDetail :=
  (pySortClasses student.classes).map fun cs =>
    { id := uuidToString student.id
      name := student.name
      age := calculate_age today student.date_of_birth
      gender := show_gender student.gender
      parent_phone_number := student.contact.parent_phone_number
      date_joined := show_date_joined student.date_joined
      status := show_status student.status
      classes := cs.map show_class_name }

def create_student_detail_view (today : Date) (student : Student) :
    Option StudentDetailView :=
  (create_student_detail today student).map fun d =>
    { student_profile := create_student_profile student
      student_detail := d }

/-- `len([a for a in attendances if a.status is status])`. -/
def attendances_for (attendances : List Attendance) (status : AttendanceStatus) : ℕ :=
  (attendances.filter fun a => a.status == status).length

/-- `create_class_attendance`: the percentage divides by `total_days()`, so
an empty attendance list raises `ZeroDivisionError` (`none`). -/
def create_class_attendance (cls : Class) (attendances : List Attendance) :
    Option AttendanceRecord :=
  if attendances.length = 0 then none
  else some
    { class_name := show_class_name cls
      days_absent := attendances_for attendances AttendanceStatus.ABSENT
      days_late := attendances_for attendances AttendanceStatus.LATE
      days_present := attendances_for attendances AttendanceStatus.PRESENT
      total_days := attendances.length
      percentage := pyPercentage
        (attendances_for attendances AttendanceStatus.PRESENT +
          attendances_for attendances AttendanceStatus.LATE)
        attendances.length }

/-- `itertools.groupby(list, key)`: one `(key, run)` pair per maximal run of
consecutive elements with equal keys (structural recursion from the right,
extensionally the run decomposition `groupby` yields). -/
def pyGroupBy {α κ : Type} [DecidableEq κ] (key : α → κ) : List α → List (κ × List α)
  | [] => []
  | x :: xs =>
    match pyGroupBy key xs with
    | [] => [(key x, [x])]
    | (k, run) :: rest =>
        if key x = k then (k, x :: run) :: rest
        else (key x, [x]) :: (k, run) :: rest

/-- The key order of `sorted(student.attendances, key=lambda a: a.class_.id)`
(UUIDs compare by their integer value). -/
def attLE (a b : Attendance) : Prop := a.class_.id ≤ b.class_.id

instance : DecidableRel attLE := fun a b => by
  unfold attLE
  infer_instance

instance : IsTotal Attendance attLE :=
  ⟨fun a b => by unfold attLE; omega⟩

instance : IsTrans Attendance attLE :=
  ⟨fun a b c h1 h2 => by unfold attLE at h1 h2 ⊢; omega⟩

/-- `create_attendance_records`: stable sort by `class_.id`, group
consecutively by the full `Class` value, build one record per group. -/
def create_attendance_records (student : Student) : Option (List AttendanceRecord) :=
  (pyGroupBy (fun a => a.class_) (student.attendances.insertionSort attLE)).mapM
    fun g => create_class_attendance g.1 g.2

def create_student_attendance_view (today : Date) (student : Student) :
    Option StudentAttendanceView :=
  (create_attendance_records student).map fun rs =>
    { student_profile := create_student_profile student
      attendance_records := rs
      today := today }

/-! #### Fixture store (module-level seed data) -/

/-- `aa36e8cf-4cde-4054-b813-511dbca4e08c`. -/
def class1 : Class :=
  { id := 226253865256843812798466197939793748108
    name := "국체반 Claire"
    time_slot := ⟨6, 20, Period.PM⟩ }

/-- `aade1d34-20d1-4dd5-a302-9b953bb33181`. -/
def class2 : Class :=
  { id := 227122041505929940141073109970230391169
    name := "우선미 선생님"
    time_slot := ⟨8, 10, Period.PM⟩ }

/-- `9b944a27-889f-45f1-863d-7f1ce4c96f04`. -/
def class3 : Class :=
  { id := 206800303312216633908680468536593313540
    name := "우선미 선생님"
    time_slot := ⟨8, 10, Period.PM⟩ }

/-- `8f3f55cf-de69-4e70-82d4-aac0ca82d9ee`. -/
def student1 : Student :=
  { id := 190408458573209594621992237341830470126
    name := "이채원"
    date_of_birth := ⟨2005, 1, 22⟩
    gender := Gender.FEMALE
    contact := { parent_phone_number := "010-2345-6789" }
    date_joined := ⟨2018, 5, 13⟩
    status := Status.NONE
    classes := [class1]
    attendances :=
       [⟨⟨2020, 6, 1⟩, class1, AttendanceStatus.PRESENT⟩,
        ⟨⟨2020, 5, 29⟩, class1, AttendanceStatus.PRESENT⟩,
        ⟨⟨2020, 5, 28⟩, class1, AttendanceStatus.PRESENT⟩,
        ⟨⟨2020, 5, 27⟩, class1, AttendanceStatus.ABSENT⟩,
        ⟨⟨2020, 5, 26⟩, class1, AttendanceStatus.LATE⟩] }

/-- `73af91aa-1a88-4fd9-8ffa-b31297d1dcdd`. -/
def student2 : Student :=
  { id := 153772825891900478383172485679349357789
    name := "김대현"
    date_of_birth := ⟨2006, 3, 1⟩
    gender := Gender.MALE
    contact := { parent_phone_number := "010-2345-6789" }
    date_joined := ⟨2017, 2, 2⟩
    status := Status.NONE
    classes := [class1, class2]
    attendances :=
       [⟨⟨2020, 6, 1⟩, class1, AttendanceStatus.PRESENT⟩,
        ⟨⟨2020, 6, 1⟩, class2, AttendanceStatus.PRESENT⟩,
        ⟨⟨2020, 5, 29⟩, class1, AttendanceStatus.PRESENT⟩,
        ⟨⟨2020, 5, 29⟩, class2, AttendanceStatus.PRESENT⟩,
        ⟨⟨2020, 5, 28⟩, class1, AttendanceStatus.PRESENT⟩,
        ⟨⟨2020, 5, 28⟩, class2, AttendanceStatus.PRESENT⟩,
        ⟨⟨2020, 5, 27⟩, class1, AttendanceStatus.ABSENT⟩,
        ⟨⟨2020, 5, 27⟩, class2, AttendanceStatus.LATE⟩,
        ⟨⟨2020, 5, 29⟩, class1, AttendanceStatus.PRESENT⟩,
        ⟨⟨2020, 5, 26⟩, class1, AttendanceStatus.LATE⟩] }

/-- `65cb2dc9-95b4-4cb6-987d-78a9db5e2c8b`. -/
def student3 : Student :=
  { id := 135306992516183138243236377108181560459
    name := "박은경"
    date_of_birth := ⟨2003, 6, 10⟩
    gender := Gender.FEMALE
    contact := { parent_phone_number := "010-2345-6789" }
    date_joined := ⟨2016, 10, 24⟩
    status := Status.BREAK
    classes := [class3]
    attendances :=
       [⟨⟨2020, 6, 1⟩, class3, AttendanceStatus.ABSENT⟩,
        ⟨⟨2020, 5, 29⟩, class3, AttendanceStatus.ABSENT⟩,
        ⟨⟨2020, 5, 28⟩, class3, AttendanceStatus.ABSENT⟩,
        ⟨⟨2020, 5, 27⟩, class3, AttendanceStatus.ABSENT⟩,
        ⟨⟨2020, 5, 26⟩, class3, AttendanceStatus.ABSENT⟩] }

def students : List Student := [student1, student2, student3]

example : uuidToString 190408458573209594621992237341830470126 =
    "8f3f55cf-de69-4e70-82d4-aac0ca82d9ee" := by decide

/-! #### Request handlers -/

/-- The two failure modes a handler can surface: `web.HTTPNotFound` raised
explicitly, or an exception (`TypeError`) escaping from view building. -/
inductive PyError
  | notFound
  | typeError
deriving DecidableEq

/-- `get_student`: first fixture student whose `str(id)` equals the given
identifier string, else `None`. -/
def get_student (student_id : String) : Option Student :=
  students.find? fun s => uuidToString s.id == student_id

/-- The handler built by `create_student_detail_handler`: reads the
`student_id` path parameter (`none` when absent; the walrus `if` also
rejects an empty string as falsy), looks the student up, renders the detail
view, and raises `HTTPNotFound` otherwise. -/
def handle_student_detail (today : Date) (student_id? : Option String) :
    Except PyError StudentDetailView :=
  match student_id? with
  | some sid =>
      if sid = "" then Except.error PyError.notFound
      else
        match get_student sid with
        | some st =>
            match create_student_detail_view today st with
            | some v => Except.ok v
            | none => Except.error PyError.typeError
        | none => Except.error PyError.notFound
  | none => Except.error PyError.notFound

/-- The handler built by `create_student_attendance_handler`. -/
def handle_student_attendance (today : Date) (student_id? : Option String) :
    Except PyError StudentAttendanceView :=
  match student_id? with
  | some sid =>
      if sid = "" then Except.error PyError.notFound
      else
        match get_student sid with
        | some st =>
            match create_student_attendance_view today st with
            | some v => Except.ok v
            | none => Except.error PyError.typeError
        | none => Except.error PyError.notFound
  | none => Except.error PyError.notFound

/-- The handler built by `create_student_list_handler`. -/
def handle_student_list : Except PyError StudentListView :=
  match create_student_list_view students with
  | some v => Except.ok v
  | none => Except.error PyError.typeError

/-! #### Properties of `pyGroupBy` -/

theorem pyGroupBy_join {α κ : Type} [DecidableEq κ] (key : α → κ) (l : List α) :
    ((pyGroupBy key l).map Prod.snd).join = l := by
  induction l with
  | nil => rfl
  | cons x xs ih =>
    rw [pyGroupBy]
    split
    · rename_i hG
      rw [hG] at ih
      simp only [List.map_nil, List.join_nil] at ih
      simp [← ih]
    · rename_i k run rest hG
      rw [hG] at ih
      simp only [List.map_cons, List.join_cons] at ih
      split
      · simp only [List.map_cons, List.join_cons, List.cons_append, ih]
      · simp only [List.map_cons, List.join_cons, List.singleton_append, ih]

theorem pyGroupBy_key_eq {α κ : Type} [DecidableEq κ] (key : α → κ) (l : List α) :
    ∀ p ∈ pyGroupBy key l, ∀ a ∈ p.2, key a = p.1 := by
  induction l with
  | nil =>
    intro p hp
    simp [pyGroupBy] at hp
  | cons x xs ih =>
    intro p hp a ha
    rw [pyGroupBy] at hp
    split at hp
    · rename_i hG
      rcases List.mem_singleton.mp hp with rfl
      rcases List.mem_singleton.mp ha with rfl
      rfl
    · rename_i k run rest hG
      split at hp
      · rename_i hk
        rcases List.mem_cons.mp hp with rfl | hrest
        · rcases List.mem_cons.mp ha with rfl | harun
          · exact hk
          · exact ih (k, run) (hG ▸ List.mem_cons_self _ _) a harun
        · exact ih p (hG ▸ List.mem_cons_of_mem _ hrest) a ha
      · rcases List.mem_cons.mp hp with rfl | hrest
        · rcases List.mem_singleton.mp ha with rfl
          rfl
        · exact ih p (hG ▸ hrest) a ha

theorem pyGroupBy_ne_nil {α κ : Type} [DecidableEq κ] (key : α → κ) (l : List α) :
    ∀ p ∈ pyGroupBy key l, p.2 ≠ [] := by
  induction l with
  | nil =>
    intro p hp
    simp [pyGroupBy] at hp
  | cons x xs ih =>
    intro p hp
    rw [pyGroupBy] at hp
    split at hp
    · rcases List.mem_singleton.mp hp with rfl
      simp
    · rename_i k run rest hG
      split at hp
      · rcases List.mem_cons.mp hp with rfl | hrest
        · simp
        · exact ih p (hG ▸ List.mem_cons_of_mem _ hrest)
      · rcases List.mem_cons.mp hp with rfl | hrest
        · simp
        · exact ih p (hG ▸ hrest)

theorem pyGroupBy_key_mem {α κ : Type} [DecidableEq κ] (key : α → κ) (l : List α) :
    ∀ p ∈ pyGroupBy key l, ∃ h ∈ l, key h = p.1 := by
  intro p hp
  obtain ⟨a, ha⟩ := List.exists_mem_of_ne_nil _ (pyGroupBy_ne_nil key l p hp)
  refine ⟨a, ?_, pyGroupBy_key_eq key l p hp a ha⟩
  have hj : a ∈ ((pyGroupBy key l).map Prod.snd).join := by
    rw [List.mem_join]
    exact ⟨p.2, List.mem_map_of_mem Prod.snd hp, ha⟩
  rwa [pyGroupBy_join] at hj

/-- The first group of a grouping starts with the first element and carries
its key. -/
theorem pyGroupBy_head {α κ : Type} [DecidableEq κ] (key : α → κ) (x : α) (xs : List α) :
    ∃ run rest, pyGroupBy key (x :: xs) = (key x, x :: run) :: rest := by
  rw [pyGroupBy]
  split
  · exact ⟨[], [], rfl⟩
  · rename_i k run rest hG
    split
    · rename_i hk
      exact ⟨run, rest, by rw [hk]⟩
    · exact ⟨[], (k, run) :: rest, rfl⟩

theorem pyGroupBy_chain_le {α κ : Type} [DecidableEq κ] (key : α → κ) (idf : κ → ℕ) :
    ∀ l : List α, (l.Pairwise fun a b => idf (key a) ≤ idf (key b)) →
      (pyGroupBy key l).Chain' fun p q => idf p.1 ≤ idf q.1 := by
  intro l
  induction l with
  | nil =>
    intro _
    simp [pyGroupBy]
  | cons x xs ih =>
    intro hsort
    obtain ⟨hx, hxs⟩ := List.pairwise_cons.mp hsort
    have ihC := ih hxs
    rw [pyGroupBy]
    split
    · simp
    · rename_i k run rest hG
      rw [hG] at ihC
      split
      · rename_i hk
        rw [List.chain'_cons'] at ihC ⊢
        exact ⟨ihC.1, ihC.2⟩
      · rename_i hk
        rw [List.chain'_cons]
        refine ⟨?_, ihC⟩
        cases xs with
        | nil => simp [pyGroupBy] at hG
        | cons y ys =>
          obtain ⟨run2, rest2, hhead⟩ := pyGroupBy_head key y ys
          rw [hhead] at hG
          have hky : k = key y := by
            have := congrArg (fun l => List.head? l) hG
            simp at this
            exact this.1.symm
          rw [hky]
          exact hx y (List.mem_cons_self y ys)

theorem pyGroupBy_chain_lt {α κ : Type} [DecidableEq κ] (key : α → κ) (idf : κ → ℕ) :
    ∀ l : List α, (l.Pairwise fun a b => idf (key a) ≤ idf (key b)) →
      (∀ a ∈ l, ∀ b ∈ l, idf (key a) = idf (key b) → key a = key b) →
      (pyGroupBy key l).Chain' fun p q => idf p.1 < idf q.1 := by
  intro l
  induction l with
  | nil =>
    intro _ _
    simp [pyGroupBy]
  | cons x xs ih =>
    intro hsort hinj
    obtain ⟨hx, hxs⟩ := List.pairwise_cons.mp hsort
    have ihC := ih hxs fun a ha b hb =>
      hinj a (List.mem_cons_of_mem x ha) b (List.mem_cons_of_mem x hb)
    rw [pyGroupBy]
    split
    · simp
    · rename_i k run rest hG
      rw [hG] at ihC
      split
      · rename_i hk
        rw [List.chain'_cons'] at ihC ⊢
        exact ⟨ihC.1, ihC.2⟩
      · rename_i hk
        rw [List.chain'_cons]
        refine ⟨?_, ihC⟩
        cases xs with
        | nil => simp [pyGroupBy] at hG
        | cons y ys =>
          obtain ⟨run2, rest2, hhead⟩ := pyGroupBy_head key y ys
          rw [hhead] at hG
          have hky : k = key y := by
            have := congrArg (fun l => List.head? l) hG
            simp at this
            exact this.1.symm
          subst hky
          have hle2 : idf (key x) ≤ idf (key y) := hx y (List.mem_cons_self y ys)
          rcases Nat.lt_or_ge (idf (key x)) (idf (key y)) with hlt | hge
          · exact hlt
          · exfalso
            have heq : idf (key x) = idf (key y) := by omega
            exact hk (hinj x (List.mem_cons_self x _) y
              (List.mem_cons_of_mem x (List.mem_cons_self y ys)) heq)

theorem pyGroupBy_keys_ne {α κ : Type} [DecidableEq κ] (key : α → κ) (idf : κ → ℕ)
    (l : List α) (hsort : l.Pairwise fun a b => idf (key a) ≤ idf (key b))
    (hinj : ∀ a ∈ l, ∀ b ∈ l, idf (key a) = idf (key b) → key a = key b) :
    (pyGroupBy key l).Pairwise fun p q => p.1 ≠ q.1 := by
  haveI : IsTrans (κ × List α) (fun p q => idf p.1 < idf q.1) :=
    ⟨fun a b c h1 h2 => lt_trans h1 h2⟩
  have hchain := pyGroupBy_chain_lt key idf l hsort hinj
  have hpw := List.chain'_iff_pairwise.mp hchain
  exact hpw.imp fun h heq => by rw [heq] at h; exact lt_irrefl _ h

theorem eq_of_mem_pairwise_ne {α κ : Type} {gs : List (κ × List α)}
    (h : gs.Pairwise fun p q => p.1 ≠ q.1) :
    ∀ p ∈ gs, ∀ q ∈ gs, p.1 = q.1 → p = q := by
  induction gs with
  | nil =>
    intro p hp
    exact absurd hp (List.not_mem_nil p)
  | cons g gs ih =>
    obtain ⟨hg, hgs⟩ := List.pairwise_cons.mp h
    intro p hp q hq hpq
    rcases List.mem_cons.mp hp with rfl | hp' <;> rcases List.mem_cons.mp hq with rfl | hq'
    · rfl
    · exact absurd hpq (hg q hq')
    · exact absurd hpq.symm (hg p hp')
    · exact ih hgs p hp' q hq' hpq

theorem pyGroupBy_mem_group {α κ : Type} [DecidableEq κ] (key : α → κ) (idf : κ → ℕ)
    (l : List α) (hsort : l.Pairwise fun a b => idf (key a) ≤ idf (key b))
    (hinj : ∀ a ∈ l, ∀ b ∈ l, idf (key a) = idf (key b) → key a = key b) :
    ∀ p ∈ pyGroupBy key l, ∀ a ∈ l, key a = p.1 → a ∈ p.2 := by
  intro p hp a ha hkey
  have haj : a ∈ ((pyGroupBy key l).map Prod.snd).join := by
    rw [pyGroupBy_join]
    exact ha
  rw [List.mem_join] at haj
  obtain ⟨l2, hl2, hal2⟩ := haj
  obtain ⟨q, hq, rfl⟩ := List.mem_map.mp hl2
  have hqa : key a = q.1 := pyGroupBy_key_eq key l q hq a hal2
  have hpq : p = q :=
    eq_of_mem_pairwise_ne (pyGroupBy_keys_ne key idf l hsort hinj) p hp q hq
      (by rw [← hkey, hqa])
  rw [hpq]
  exact hal2

/-! #### Helper facts about the attendance pipeline -/

/-- The sorted attendance list used by `create_attendance_records`. -/
def sorted_attendances (s : Student) : List Attendance :=
  s.attendances.insertionSort attLE

/-- The `itertools.groupby` result inside `create_attendance_records`. -/
def grouped_attendances (s : Student) : List (Class × List Attendance) :=
  pyGroupBy (fun a => a.class_) (sorted_attendances s)

theorem create_attendance_records_eq (s : Student) :
    create_attendance_records s =
      (grouped_attendances s).mapM fun g => create_class_attendance g.1 g.2 := rfl

theorem sorted_attendances_perm (s : Student) :
    (sorted_attendances s).Perm s.attendances :=
  List.perm_insertionSort attLE s.attendances

theorem sorted_attendances_pairwise (s : Student) :
    (sorted_attendances s).Pairwise fun a b => a.class_.id ≤ b.class_.id :=
  (List.sorted_insertionSort attLE s.attendances).imp fun h => h

theorem mem_sorted_attendances (s : Student) (a : Attendance) :
    a ∈ sorted_attendances s ↔ a ∈ s.attendances :=
  List.mem_insertionSort attLE

/-- Elementwise success of `Option`-valued `mapM` over a list. -/
theorem mapM_option_spec {α β : Type} (f : α → Option β) :
    ∀ l : List α, (∀ x ∈ l, (f x).isSome) →
      ∃ ys, l.mapM f = some ys ∧ ys.length = l.length ∧
        ∀ i (h1 : i < l.length) (h2 : i < ys.length),
          f (l.get ⟨i, h1⟩) = some (ys.get ⟨i, h2⟩) := by
  intro l
  induction l with
  | nil =>
    intro _
    exact ⟨[], rfl, rfl, fun i h1 => absurd h1 (Nat.not_lt_zero i)⟩
  | cons x xs ih =>
    intro hall
    have hx : (f x).isSome := hall x (List.mem_cons_self x xs)
    obtain ⟨y, hy⟩ := Option.isSome_iff_exists.mp hx
    obtain ⟨ys, hys, hlen, hidx⟩ := ih fun a ha => hall a (List.mem_cons_of_mem x ha)
    refine ⟨y :: ys, ?_, by simpa using hlen, ?_⟩
    · rw [List.mapM_cons, hy, hys]
      rfl
    · intro i h1 h2
      cases i with
      | zero => simpa using hy
      | succ j =>
        simp only [List.get_cons_succ]
        exact hidx j (by simpa using h1) (by simpa using h2)

theorem attendances_sum (atts : List Attendance) :
    attendances_for atts AttendanceStatus.ABSENT +
      attendances_for atts AttendanceStatus.LATE +
      attendances_for atts AttendanceStatus.PRESENT = atts.length := by
  induction atts with
  | nil => rfl
  | cons a l ih =>
    cases h : a.status <;>
      simp [attendances_for, List.filter_cons, h] at ih ⊢ <;> omega

theorem attendances_for_add_le (atts : List Attendance) :
    attendances_for atts AttendanceStatus.PRESENT +
      attendances_for atts AttendanceStatus.LATE ≤ atts.length := by
  have := attendances_sum atts
  omega

/-- Two attendance entries lie in the same `itertools.groupby` group. -/
def inSameGroup (groups : List (Class × List Attendance)) (a b : Attendance) : Prop :=
  ∃ p ∈ groups, a ∈ p.2 ∧ b ∈ p.2

instance (groups : List (Class × List Attendance)) (a b : Attendance) :
    Decidable (inSameGroup groups a b) := by
  unfold inSameGroup
  infer_instance

/-! #### Adversarial fixtures used by the counterexamples -/

/-- Two distinct `Class` values sharing one id (nothing in the model forbids
it): grouping by the full value after sorting by id splits them. -/
def cDupA : Class := ⟨1, "A", ⟨1, 0, Period.AM⟩⟩

def cDupB : Class := ⟨1, "B", ⟨2, 0, Period.AM⟩⟩

def sDup : Student :=
  { id := 1
    name := "dup"
    date_of_birth := ⟨2000, 1, 1⟩
    gender := Gender.FEMALE
    date_joined := ⟨2020, 1, 1⟩
    status := Status.NONE
    contact := { parent_phone_number := "p" }
    classes := []
    attendances :=
      [⟨⟨2020, 1, 1⟩, cDupA, AttendanceStatus.PRESENT⟩,
       ⟨⟨2020, 1, 2⟩, cDupB, AttendanceStatus.PRESENT⟩,
       ⟨⟨2020, 1, 3⟩, cDupA, AttendanceStatus.PRESENT⟩] }

/-- Two classes whose time slots tie on hours and minutes but differ in
period: sorting their tuples compares the two `Period` values. -/
def cTieA : Class := ⟨1, "a", ⟨9, 30, Period.PM⟩⟩

def cTieB : Class := ⟨2, "b", ⟨9, 30, Period.AM⟩⟩

def sTie : Student :=
  { id := 2
    name := "tie"
    date_of_birth := ⟨2000, 1, 1⟩
    gender := Gender.FEMALE
    date_joined := ⟨2020, 1, 1⟩
    status := Status.NONE
    contact := { parent_phone_number := "p" }
    classes := [cTieA, cTieB]
    attendances := [] }

/-- A class group of 24 attendance entries, 15 of them present: the exact
ratio 100·15/24 = 62.5 is a tie. -/
def c24 : Class := ⟨5, "C", ⟨1, 0, Period.AM⟩⟩

def s24 : Student :=
  { id := 3
    name := "tie24"
    date_of_birth := ⟨2000, 1, 1⟩
    gender := Gender.FEMALE
    date_joined := ⟨2020, 1, 1⟩
    status := Status.NONE
    contact := { parent_phone_number := "p" }
    classes := [c24]
    attendances :=
      List.replicate 15 ⟨⟨2020, 1, 1⟩, c24, AttendanceStatus.PRESENT⟩ ++
        List.replicate 9 ⟨⟨2020, 1, 2⟩, c24, AttendanceStatus.ABSENT⟩ }

/-! ### Claims -/

/-- C1 (counterexample): the claim's formula `round(100·(p+l)/t)` with the
language's default rounding (round half to even) is violated at an exact
tie.  A group of 24 entries, 15 present and 9 absent, has exact ratio
62.5; Python's default rounding gives 62, but the code computes
`round((100/24)*15)` in floats, where `(100/24)*15` rounds to
62.500000000000007 and `round` returns 63. -/
theorem c1_percentage_counterexample :
    create_attendance_records s24 = some [⟨"1:0AM C", 9, 0, 15, 24, 63⟩] ∧
      specPercentage 15 24 = 62 := by
  constructor
  · decide
  · decide

/-- C1 (amended): for every class group with `0 < totalDays ≤ 2^40` whose
exact ratio `100·(daysPresent+daysLate)/totalDays` is not an exact
half-integer tie, the percentage field equals
`round(100·(daysPresent+daysLate)/totalDays)` rounded to the nearest
integer (at such non-ties every tie rule agrees); at exact ties the float
computation may round away from even. -/
theorem c1_percentage_eq_round (cls : Class) (atts : List Attendance)
    (hne : atts ≠ []) (hsize : atts.length ≤ 2 ^ 40)
    (hnotie : ¬ (atts.length ∣
        200 * (attendances_for atts AttendanceStatus.PRESENT +
          attendances_for atts AttendanceStatus.LATE) ∧
      (200 * (attendances_for atts AttendanceStatus.PRESENT +
          attendances_for atts AttendanceStatus.LATE) / atts.length) % 2 = 1)) :
    ∃ rec, create_class_attendance cls atts = some rec ∧
      rec.total_days = atts.length ∧
      rec.days_present = attendances_for atts AttendanceStatus.PRESENT ∧
      rec.days_late = attendances_for atts AttendanceStatus.LATE ∧
      rec.percentage = specPercentage
        (attendances_for atts AttendanceStatus.PRESENT +
          attendances_for atts AttendanceStatus.LATE) atts.length := by
  have hlen : atts.length ≠ 0 := by
    intro h
    exact hne (List.length_eq_zero.mp h)
  refine ⟨_, by unfold create_class_attendance; rw [if_neg hlen], rfl, rfl, rfl, ?_⟩
  exact pyPercentage_eq_spec _ _ (Nat.pos_of_ne_zero hlen) hsize
    (attendances_for_add_le atts) hnotie

/-- C1 (witness): the [PRESENT, PRESENT, PRESENT, ABSENT, LATE] group of the
first fixture student yields the record of the claim, with percentage 80. -/
theorem c1_percentage_witness :
    create_class_attendance class1 student1.attendances =
      some ⟨"6:20PM 국체반 Claire", 1, 1, 3, 5, 80⟩ ∧
    ∃ rec, create_class_attendance class1 student1.attendances = some rec ∧
      rec.total_days = student1.attendances.length ∧
      rec.days_present = attendances_for student1.attendances AttendanceStatus.PRESENT ∧
      rec.days_late = attendances_for student1.attendances AttendanceStatus.LATE ∧
      rec.percentage = specPercentage
        (attendances_for student1.attendances AttendanceStatus.PRESENT +
          attendances_for student1.attendances AttendanceStatus.LATE)
        student1.attendances.length :=
  ⟨by decide,
    c1_percentage_eq_round class1 student1.attendances (by decide) (by decide) (by decide)⟩

/-- C2 (counterexample): `create_class_attendance` on an empty attendance
list does not return percentage 0 — `percentage()` evaluates
`100 / total_days()` and raises `ZeroDivisionError` (modelled as `none`). -/
theorem c2_empty_group_counterexample :
    create_class_attendance class1 [] = none := by
  decide

/-- C2 (amended): `create_class_attendance` divides by zero on an empty
list instead of returning percentage 0; but `create_attendance_records`
only ever applies it to the nonempty runs produced by `itertools.groupby`,
so building the records never fails. -/
theorem c2_records_never_divide_by_zero (s : Student) :
    ∃ recs, create_attendance_records s = some recs ∧
      recs.length = (grouped_attendances s).length := by
  rw [create_attendance_records_eq]
  have hall : ∀ g ∈ grouped_attendances s,
      (create_class_attendance g.1 g.2).isSome := by
    intro g hg
    have hne := pyGroupBy_ne_nil (fun a : Attendance => a.class_) (sorted_attendances s) g hg
    have hlen : g.2.length ≠ 0 := fun h => hne (List.length_eq_zero.mp h)
    unfold create_class_attendance
    rw [if_neg hlen]
    rfl
  obtain ⟨ys, h1, h2, _⟩ := mapM_option_spec
    (fun g : Class × List Attendance => create_class_attendance g.1 g.2)
    (grouped_attendances s) hall
  exact ⟨ys, h1, h2⟩

/-- C10: for every record built from a nonempty attendance group (every
status is one of ABSENT, LATE, PRESENT by the type of
`AttendanceStatus`), the three counts sum to `total_days`, and the
percentage lies between 0 and 100 inclusive (it is a natural number, so
the lower bound is by type; the upper bound comes from the float error
analysis of the percentage computation). -/
theorem c10_record_invariants (cls : Class) (atts : List Attendance)
    (hne : atts ≠ []) :
    ∃ rec, create_class_attendance cls atts = some rec ∧
      rec.days_absent + rec.days_late + rec.days_present = rec.total_days ∧
      0 ≤ rec.percentage ∧ rec.percentage ≤ 100 := by
  have hlen : atts.length ≠ 0 := fun h => hne (List.length_eq_zero.mp h)
  refine ⟨_, by unfold create_class_attendance; rw [if_neg hlen], ?_, Nat.zero_le _, ?_⟩
  · exact attendances_sum atts
  · exact pyPercentage_le_100 _ _ (Nat.pos_of_ne_zero hlen) (attendances_for_add_le atts)

/-- C10 (witness): the invariants at the first fixture student's group. -/
theorem c10_record_invariants_witness :
    ∃ rec, create_class_attendance class1 student1.attendances = some rec ∧
      rec.days_absent + rec.days_late + rec.days_present = rec.total_days ∧
      0 ≤ rec.percentage ∧ rec.percentage ≤ 100 :=
  c10_record_invariants class1 student1.attendances (by decide)

/-- C3 (counterexample): grouping is not a partition by `Class` equality.
Nothing forbids two distinct `Class` values with the same id; the stable
sort by id leaves `[A, B, A]` unchanged and `itertools.groupby` splits the
two equal-`Class` entries `a₁, a₃` into different groups. -/
theorem c3_grouping_counterexample :
    (sDup.attendances.get? 0).map (·.class_) = some cDupA ∧
    (sDup.attendances.get? 2).map (·.class_) = some cDupA ∧
    ¬ inSameGroup (grouped_attendances sDup)
        ⟨⟨2020, 1, 1⟩, cDupA, AttendanceStatus.PRESENT⟩
        ⟨⟨2020, 1, 3⟩, cDupA, AttendanceStatus.PRESENT⟩ := by
  refine ⟨by decide, by decide, by decide⟩

/-- C3 (amended): provided any two of the student's attendance entries
whose classes share an id have equal classes (true of the fixture data),
`create_attendance_records` partitions the attendance list by class: two
entries land in the same group exactly when their `Class` values are equal,
and each group's record counts its entries, by status. -/
theorem c3_grouping_partition (s : Student)
    (hinj : ∀ a ∈ s.attendances, ∀ b ∈ s.attendances,
      a.class_.id = b.class_.id → a.class_ = b.class_) :
    (∀ a ∈ s.attendances, ∀ b ∈ s.attendances,
      (inSameGroup (grouped_attendances s) a b ↔ a.class_ = b.class_)) ∧
    (∀ p ∈ grouped_attendances s, ∃ rec,
      create_class_attendance p.1 p.2 = some rec ∧
      rec.total_days = p.2.length ∧
      rec.days_absent = (p.2.filter fun a => a.status == AttendanceStatus.ABSENT).length ∧
      rec.days_late = (p.2.filter fun a => a.status == AttendanceStatus.LATE).length ∧
      rec.days_present = (p.2.filter fun a => a.status == AttendanceStatus.PRESENT).length) := by
  have hsort := sorted_attendances_pairwise s
  have hinj' : ∀ a ∈ sorted_attendances s, ∀ b ∈ sorted_attendances s,
      a.class_.id = b.class_.id → a.class_ = b.class_ := by
    intro a ha b hb
    exact hinj a ((mem_sorted_attendances s a).mp ha) b ((mem_sorted_attendances s b).mp hb)
  constructor
  · intro a ha b hb
    constructor
    · rintro ⟨p, hp, hap, hbp⟩
      have h1 : a.class_ = p.1 :=
        pyGroupBy_key_eq (fun a : Attendance => a.class_) (sorted_attendances s) p hp a hap
      have h2 : b.class_ = p.1 :=
        pyGroupBy_key_eq (fun a : Attendance => a.class_) (sorted_attendances s) p hp b hbp
      rw [h1, h2]
    · intro hab
      have ha' : a ∈ sorted_attendances s := (mem_sorted_attendances s a).mpr ha
      have hb' : b ∈ sorted_attendances s := (mem_sorted_attendances s b).mpr hb
      have haj : a ∈ ((pyGroupBy (fun a : Attendance => a.class_)
          (sorted_attendances s)).map Prod.snd).join := by
        rw [pyGroupBy_join]
        exact ha'
      rw [List.mem_join] at haj
      obtain ⟨l2, hl2, hal2⟩ := haj
      obtain ⟨p, hp, rfl⟩ := List.mem_map.mp hl2
      refine ⟨p, hp, hal2, ?_⟩
      have hka : a.class_ = p.1 :=
        pyGroupBy_key_eq (fun a : Attendance => a.class_) (sorted_attendances s) p hp a hal2
      have hkb : b.class_ = p.1 := by
        rw [← hab]
        exact hka
      exact pyGroupBy_mem_group (fun a : Attendance => a.class_) Class.id
        (sorted_attendances s) hsort hinj' p hp b hb' hkb
  · intro p hp
    have hne := pyGroupBy_ne_nil (fun a : Attendance => a.class_) (sorted_attendances s) p hp
    have hlen : p.2.length ≠ 0 := fun h => hne (List.length_eq_zero.mp h)
    refine ⟨_, by unfold create_class_attendance; rw [if_neg hlen], rfl, rfl, rfl, rfl⟩

/-- C3 (witness): the second fixture student attends two classes with
distinct ids; the grouping is the by-class partition of the list. -/
theorem c3_grouping_partition_witness :
    (∀ a ∈ student2.attendances, ∀ b ∈ student2.attendances,
      a.class_.id = b.class_.id → a.class_ = b.class_) ∧
    (∀ a ∈ student2.attendances, ∀ b ∈ student2.attendances,
      (inSameGroup (grouped_attendances student2) a b ↔ a.class_ = b.class_)) :=
  ⟨by decide, (c3_grouping_partition student2 (by decide)).1⟩

/-- C4: the records come one from each group, and the groups emerge from
`itertools.groupby` in nondecreasing order of their class's UUID integer:
the order is deterministic and ascending in the Class identifier. -/
theorem c4_records_sorted_by_id (s : Student) :
    (grouped_attendances s).Pairwise (fun p q => p.1.id ≤ q.1.id) ∧
    create_attendance_records s =
      (grouped_attendances s).mapM fun g => create_class_attendance g.1 g.2 := by
  constructor
  · haveI : IsTrans (Class × List Attendance) (fun p q => p.1.id ≤ q.1.id) :=
      ⟨fun a b c h1 h2 => le_trans h1 h2⟩
    exact List.chain'_iff_pairwise.mp
      (pyGroupBy_chain_le (fun a : Attendance => a.class_) Class.id
        (sorted_attendances s) (sorted_attendances_pairwise s))
  · rfl

/-- C5 (counterexample): sorting the classes is not by
`(hours, minutes, period-as-encoded)`.  When two time slots tie on hours
and minutes and differ only in period, Python compares the two `Period`
enum members, which raises `TypeError` (plain `Enum` defines no order), so
the row/detail is never produced at all. -/
theorem c5_sort_counterexample :
    create_listable_student sTie = none ∧
    create_student_detail ⟨2020, 6, 1⟩ sTie = none ∧
    sTie.classes = [cTieA, cTieB] ∧
    cTieA.time_slot.period = Period.PM ∧ cTieB.time_slot.period = Period.AM := by
  refine ⟨by decide, by decide, by decide, by decide, by decide⟩

/-- C5 (amended): when no two of the student's classes tie on hours and
minutes with different periods — true of all fixture students — the
row/detail lists the classes sorted ascending lexicographically by
`(hours, minutes)`; the period is never used as a sort key (with such a
tie absent it cannot influence the order, and with one present the sort
raises `TypeError` instead of ordering AM before PM). -/
theorem c5_classes_sorted (today : Date) (s : Student)
    (hcomp : tsComparable s.classes = true) :
    ∃ cs, pySortClasses s.classes = some cs ∧
      cs.Perm s.classes ∧
      cs.Pairwise tsLE ∧
      create_listable_student s = some
        { id := uuidToString s.id
          name := s.name
          status := show_status s.status
          classes := cs.map show_class_name } ∧
      create_student_detail today s = some
        { id := uuidToString s.id
          name := s.name
          age := calculate_age today s.date_of_birth
          gender := show_gender s.gender
          parent_phone_number := s.contact.parent_phone_number
          date_joined := show_date_joined s.date_joined
          status := show_status s.status
          classes := cs.map show_class_name } := by
  refine ⟨s.classes.insertionSort tsLE, ?_, List.perm_insertionSort _ _,
    List.sorted_insertionSort _ _, ?_, ?_⟩
  · unfold pySortClasses
    rw [if_pos hcomp]
  · unfold create_listable_student pySortClasses
    rw [if_pos hcomp]
    rfl
  · unfold create_student_detail pySortClasses
    rw [if_pos hcomp]
    rfl

/-- C5 (witness): the second fixture student's two classes are comparable
and come out sorted by (hours, minutes). -/
theorem c5_classes_sorted_witness :
    tsComparable student2.classes = true ∧
    ∃ cs, pySortClasses student2.classes = some cs ∧
      cs.Perm student2.classes ∧
      cs.Pairwise tsLE ∧
      create_listable_student student2 = some
        { id := uuidToString student2.id
          name := student2.name
          status := show_status student2.status
          classes := cs.map show_class_name } ∧
      create_student_detail ⟨2020, 6, 1⟩ student2 = some
        { id := uuidToString student2.id
          name := student2.name
          age := calculate_age ⟨2020, 6, 1⟩ student2.date_of_birth
          gender := show_gender student2.gender
          parent_phone_number := student2.contact.parent_phone_number
          date_joined := show_date_joined student2.date_joined
          status := show_status student2.status
          classes := cs.map show_class_name } :=
  ⟨by decide, c5_classes_sorted ⟨2020, 6, 1⟩ student2 (by decide)⟩

/-- C6 (counterexample): the list view does not always produce one row per
student — a student whose classes cannot be sorted (period tie) makes the
whole comprehension raise `TypeError`, so no view is produced. -/
theorem c6_list_view_counterexample :
    create_student_list_view [sTie] = none := by
  decide

/-- C6 (amended): for every input list of students in which no student has
two classes tying on hours and minutes with different periods (true of the
fixture set), `create_student_list_view` produces exactly one row per
input student, in input order. -/
theorem c6_one_row_per_student (ss : List Student)
    (hcomp : ∀ s ∈ ss, tsComparable s.classes = true) :
    ∃ v, create_student_list_view ss = some v ∧
      v.students.length = ss.length ∧
      ∀ i (h1 : i < ss.length) (h2 : i < v.students.length),
        create_listable_student (ss.get ⟨i, h1⟩) = some (v.students.get ⟨i, h2⟩) := by
  have hall : ∀ s ∈ ss, (create_listable_student s).isSome := by
    intro s hs
    unfold create_listable_student pySortClasses
    rw [if_pos (hcomp s hs)]
    rfl
  obtain ⟨ys, h1, h2, h3⟩ := mapM_option_spec create_listable_student ss hall
  refine ⟨⟨ys⟩, ?_, h2, h3⟩
  unfold create_student_list_view
  rw [h1]
  rfl

/-- C6 (witness): the fixture set. -/
theorem c6_one_row_per_student_witness :
    (∀ s ∈ students, tsComparable s.classes = true) ∧
    ∃ v, create_student_list_view students = some v ∧
      v.students.length = students.length ∧
      ∀ i (h1 : i < students.length) (h2 : i < v.students.length),
        create_listable_student (students.get ⟨i, h1⟩) = some (v.students.get ⟨i, h2⟩) :=
  ⟨by decide, c6_one_row_per_student students (by decide)⟩

/-- C7 (counterexample): the age does not increment only on birthday
anniversaries.  For a Feb-29 date of birth, `relativedelta` clamps
`dob + 36 months` to 2007-02-28, so the age steps from 2 to 3 between
2007-02-27 and 2007-02-28 — and (2, 28) is not the (month, day) of the
birth date (2, 29). -/
theorem c7_age_counterexample :
    calculate_age ⟨2007, 2, 28⟩ ⟨2004, 2, 29⟩ = 3 ∧
    calculate_age ⟨2007, 2, 27⟩ ⟨2004, 2, 29⟩ = 2 ∧
    (28 : ℕ) ≠ 29 := by
  refine ⟨by decide, by decide, by decide⟩

/-- C7 (amended): for valid dates with `date_of_birth ≤ today` whose birth
date is not Feb 29, `calculate_age` returns the whole calendar years
elapsed: the year difference, minus one exactly when today's (month, day)
precedes the birth date's.  Hence it is 0 when the dates are equal,
increments by exactly 1 on each anniversary and on no other date change,
and `calculate_age(2020-06-01, 2005-01-22) = 15`; for a Feb-29 birth date
the step instead falls on Feb 28 of common years. -/
theorem c7_age_whole_years (today dob : Date) (hvt : today.Valid) (hvd : dob.Valid)
    (hle : dateLT today dob = false) (hnl : ¬ (dob.month = 2 ∧ dob.day = 29)) :
    calculate_age today dob =
      (today.year : ℤ) - dob.year -
        (if today.month < dob.month ∨ (today.month = dob.month ∧ today.day < dob.day)
          then 1 else 0) :=
  calculate_age_closed today dob hvt hvd hle hnl

/-- C7 (witness): the claim's example dates, and equality of dates giving
age 0. -/
theorem c7_age_whole_years_witness :
    calculate_age ⟨2020, 6, 1⟩ ⟨2005, 1, 22⟩ = 15 ∧
    calculate_age ⟨2020, 6, 1⟩ ⟨2020, 6, 1⟩ = 0 := by
  constructor
  · have h := c7_age_whole_years ⟨2020, 6, 1⟩ ⟨2005, 1, 22⟩
      (by decide) (by decide) (by decide) (by decide)
    rw [h]
    norm_num
  · have h := c7_age_whole_years ⟨2020, 6, 1⟩ ⟨2020, 6, 1⟩
      (by decide) (by decide) (by decide) (by decide)
    rw [h]
    norm_num

/-- C8: `show_class_name` renders `"{hours}:{minutes}{AM|PM} {name}"`; the
period map is exhaustive over the two `Period` members, so the dict's
empty-string default is unreachable for a typed `Period`, and `str(int)`
never zero-pads the minutes (`6:5PM X`, not `6:05PM X`). -/
theorem c8_class_name_format :
    (∀ cls : Class, show_class_name cls =
      toString cls.time_slot.hours ++ ":" ++ toString cls.time_slot.minutes ++
        show_period cls.time_slot.period ++ " " ++ cls.name) ∧
    (∀ p : Period, show_period p = (match p with | Period.AM => "AM" | Period.PM => "PM")) ∧
    show_class_name class1 = "6:20PM 국체반 Claire" ∧
    show_class_name ⟨0, "X", ⟨6, 5, Period.PM⟩⟩ = "6:5PM X" := by
  refine ⟨fun cls => rfl, fun p => ?_, by decide, by decide⟩
  cases p <;> rfl

/-- C9: an identifier string matching no fixture student's UUID string —
malformed identifiers included, since `str(s.id) == student_id` is just a
string comparison — makes `get_student` return `None` and both
identifier-taking handlers answer `HTTPNotFound`; no student is
substituted and no separate validation error exists. -/
theorem c9_not_found (today : Date) (sid : String)
    (hmiss : ∀ s ∈ students, uuidToString s.id ≠ sid) :
    get_student sid = none ∧
    handle_student_detail today (some sid) = Except.error PyError.notFound ∧
    handle_student_attendance today (some sid) = Except.error PyError.notFound := by
  have hnone : get_student sid = none := by
    unfold get_student
    rw [List.find?_eq_none]
    intro s hs
    simpa using hmiss s hs
  refine ⟨hnone, ?_, ?_⟩
  · unfold handle_student_detail
    by_cases hsid : sid = "" <;> simp [hsid, hnone]
  · unfold handle_student_attendance
    by_cases hsid : sid = "" <;> simp [hsid, hnone]

/-- C9 (witness): a malformed identifier. -/
theorem c9_not_found_witness :
    (∀ s ∈ students, uuidToString s.id ≠ "not-a-uuid") ∧
    get_student "not-a-uuid" = none ∧
    handle_student_detail ⟨2020, 6, 1⟩ (some "not-a-uuid") =
      Except.error PyError.notFound ∧
    handle_student_attendance ⟨2020, 6, 1⟩ (some "not-a-uuid") =
      Except.error PyError.notFound :=
  ⟨by decide, c9_not_found ⟨2020, 6, 1⟩ "not-a-uuid" (by decide)⟩
